import Mathlib

/-!
Verification of the narrative-consistency and page-composition pipeline of the
book_publishing_api repository.  Python strings are modelled as `List Char`,
Python dictionaries as association lists, and the external LLM / image backends
as explicit outcome functions.  Every definition is translated from the source
file named in its doc comment.
-/

namespace BookPub

/-- Python strings are modelled as lists of characters. -/
abbrev Str := List Char

/-- Convert a Lean string literal to the model type. -/
def str (s : String) : Str := s.toList

/-- Decimal digit character for a value below ten (models Python number
formatting inside f-strings). -/
def digitChar : Nat → Char
  | 0 => '0' | 1 => '1' | 2 => '2' | 3 => '3' | 4 => '4'
  | 5 => '5' | 6 => '6' | 7 => '7' | 8 => '8' | _ => '9'

/-- Decimal digits, fuel-structured so that terms evaluate by kernel
reduction; the fuel is always sufficient when it exceeds the number. -/
def natDigitsAux : Nat → Nat → List Nat
  | 0, _ => []
  | f + 1, n => if n < 10 then [n] else natDigitsAux f (n / 10) ++ [n % 10]

/-- Decimal digits of a natural number, most significant first. -/
def natDigits (n : Nat) : List Nat := natDigitsAux (n + 1) n

/-- Decimal rendering of a natural number, as produced by a Python f-string. -/
def natStr (n : Nat) : Str := (natDigits n).map digitChar

/-- The fuel of natDigitsAux is irrelevant once it exceeds the number. -/
lemma natDigitsAux_irrel : ∀ f n g, n < f → n < g →
    natDigitsAux f n = natDigitsAux g n := by
  intro f
  induction f with
  | zero => intro n g h; omega
  | succ f ih =>
    intro n g hf hg
    match g, hg with
    | g + 1, _ =>
      by_cases h10 : n < 10
      · simp [natDigitsAux, h10]
      · have hd : n / 10 < n := Nat.div_lt_self (by omega) (by omega)
        simp only [natDigitsAux, h10, if_false]
        rw [ih (n / 10) g (by omega) (by omega)]

/-- One step of natDigitsAux. -/
lemma natDigitsAux_succ (f n : Nat) :
    natDigitsAux (f + 1) n =
      if n < 10 then [n] else natDigitsAux f (n / 10) ++ [n % 10] := rfl

/-- Recurrence satisfied by natDigits. -/
lemma natDigits_unfold (n : Nat) :
    natDigits n = if n < 10 then [n] else natDigits (n / 10) ++ [n % 10] := by
  by_cases h10 : n < 10
  · simp [natDigits, natDigitsAux_succ, h10]
  · rw [if_neg h10]
    show natDigitsAux (n + 1) n = natDigits (n / 10) ++ [n % 10]
    rw [natDigitsAux_succ, if_neg h10,
      natDigitsAux_irrel n (n / 10) (n / 10 + 1)
        (by have := Nat.div_lt_self (show 0 < n by omega)
              (show 1 < 10 by omega); omega)
        (by omega)]
    rfl

/-- Every produced digit is below ten. -/
lemma natDigits_lt10 : ∀ n, ∀ d ∈ natDigits n, d < 10 := by
  intro n
  induction n using Nat.strong_induction_on with
  | _ n ih =>
    intro d hd
    rw [natDigits_unfold] at hd
    by_cases h10 : n < 10
    · simp [h10] at hd; omega
    · simp only [h10, if_false, List.mem_append, List.mem_singleton] at hd
      rcases hd with hd | rfl
      · exact ih (n / 10) (Nat.div_lt_self (by omega) (by omega)) d hd
      · exact Nat.mod_lt _ (by omega)

/-- Decoding the digit list recovers the number. -/
lemma natDigits_val : ∀ n,
    List.foldl (fun a d => 10 * a + d) 0 (natDigits n) = n := by
  intro n
  induction n using Nat.strong_induction_on with
  | _ n ih =>
    rw [natDigits_unfold]
    by_cases h10 : n < 10
    · simp [h10]
    · simp only [h10, if_false, List.foldl_append, List.foldl_cons,
        List.foldl_nil]
      rw [ih (n / 10) (Nat.div_lt_self (by omega) (by omega))]
      omega

/-- natDigits is injective. -/
lemma natDigits_inj {m n : Nat} (h : natDigits m = natDigits n) : m = n := by
  have hm := natDigits_val m
  have hn := natDigits_val n
  rw [h] at hm
  omega

/-- digitChar is injective below ten. -/
lemma digitChar_inj : ∀ d1 d2, d1 < 10 → d2 < 10 →
    digitChar d1 = digitChar d2 → d1 = d2 := by
  intro d1 d2 h1 h2
  interval_cases d1 <;> interval_cases d2 <;> decide

/-- natStr is injective. -/
lemma natStr_inj {m n : Nat} (h : natStr m = natStr n) : m = n := by
  apply natDigits_inj
  have hm := natDigits_lt10 m
  have hn := natDigits_lt10 n
  unfold natStr at h
  clear hm hn
  revert h
  have : ∀ (l1 l2 : List Nat), (∀ d ∈ l1, d < 10) → (∀ d ∈ l2, d < 10) →
      l1.map digitChar = l2.map digitChar → l1 = l2 := by
    intro l1
    induction l1 with
    | nil => intro l2 _ _ h; cases l2 <;> simp_all
    | cons a t ih =>
      intro l2 h1 h2 h
      cases l2 with
      | nil => simp at h
      | cons b u =>
        simp only [List.map_cons, List.cons.injEq] at h
        have ha : a = b := digitChar_inj a b (h1 a (by simp))
          (h2 b (by simp)) h.1
        have ht := ih u (fun d hd => h1 d (by simp [hd]))
          (fun d hd => h2 d (by simp [hd])) h.2
        rw [ha, ht]
  intro h
  exact this _ _ (natDigits_lt10 m) (natDigits_lt10 n) h

/-- Every character of natStr is a decimal digit. -/
lemma natStr_isDigit : ∀ n, ∀ c ∈ natStr n, c.isDigit = true := by
  intro n c hc
  obtain ⟨d, hd, rfl⟩ := List.mem_map.1 hc
  have := natDigits_lt10 n d hd
  interval_cases d <;> decide

/-- Substring test: models Python's `sub in s` for strings. -/
def containsSub (pat : Str) : Str → Bool
  | [] => pat.isPrefixOf []
  | c :: t => pat.isPrefixOf (c :: t) || containsSub pat t

/-- Python `\s` whitespace characters (ASCII fragment). -/
def isPyWS (c : Char) : Bool :=
  c = ' ' || c = '\t' || c = '\n' || c = '\r' || c = '\x0b' || c = '\x0c'

/-- Python `str.strip()`: drop whitespace from both ends. -/
def pyStrip (s : Str) : Str :=
  ((s.dropWhile isPyWS).reverse.dropWhile isPyWS).reverse

/-- Python `str.lower()` (ASCII fragment). -/
def pyLower (s : Str) : Str := s.map Char.toLower

/-- Python `sep.join(parts)`. -/
def joinSep (sep : Str) : List Str → Str
  | [] => []
  | [p] => p
  | p :: q :: rest => p ++ sep ++ joinSep sep (q :: rest)

/-- Python `l[-n:]`: the last `n` elements of a list. -/
def lastN (n : Nat) (l : List α) : List α := l.drop (l.length - n)

/- ### Data model (src/data_models) -/

/-- data_models/story_content.py: ImagePlaceholder. -/
structure ImagePlaceholder where
  id : Str
  description : Str
deriving DecidableEq, Repr

/-- data_models/story_content.py: ChapterContent. -/
structure ChapterContent where
  title : Str
  text_markdown : Str
  image_placeholders : List ImagePlaceholder
deriving DecidableEq, Repr

/-- data_models/book_plan.py: ChapterOutline. -/
structure ChapterOutline where
  title : Str
  summary : Str
  image_placeholders_needed : Nat
deriving DecidableEq, Repr

/-- data_models/book_plan.py: BookPlan (the fields used by the story writer). -/
structure BookPlan where
  title : Str
  cover_concept : Str
  image_style_guide : Str
  chapters : List ChapterOutline
deriving DecidableEq, Repr

/-- data_models/generated_image.py: GeneratedImage. -/
structure GeneratedImage where
  placeholder_id : Str
  prompt_used : Str
  image_path : Str
  error_message : Option Str
deriving DecidableEq, Repr

/- ### StoryContext data (src/src/content_generation/text_generator.py) -/

/-- Per-character state record created in StoryContext.update_from_page. -/
structure CharState where
  first_appearance : Nat
  interactions : List Str
  emotional_state : Str
  location : Str
  key_attributes : List Str
deriving DecidableEq, Repr

/-- Plot point record appended in StoryContext.update_from_page. -/
structure PlotPoint where
  page : Nat
  action : Str
  description : Str
  characters_involved : List Str
deriving DecidableEq, Repr

/-- text_generator.py, class StoryContext: the eight tracked fields.
`character_states` is a Python dict; it is modelled as an association list in
insertion order. -/
structure StoryContext where
  story_summary : Str
  character_states : List (Str × CharState)
  plot_points : List PlotPoint
  themes_developed : List Str
  mood_progression : List Str
  key_locations : List Str
  story_tensions : List Str
  page_summaries : List Str
deriving DecidableEq, Repr

/-- StoryContext.__init__: all fields empty. -/
def StoryContext.init : StoryContext :=
  ⟨[], [], [], [], [], [], [], []⟩

/- ### C9: StoryContext.to_dict / from_dict round trip -/

/-- Values stored in the dictionary produced by StoryContext.to_dict.  Python
stores the field objects themselves; the constructors record which shape of
object each key holds. -/
inductive PyVal where
  | pstr (s : Str)
  | pstates (m : List (Str × CharState))
  | pplots (l : List PlotPoint)
  | pstrlist (l : List Str)
deriving DecidableEq, Repr

/-- Python `dict.get(key, default)` over an association list. -/
def pyGet (d : List (Str × PyVal)) (k : Str) (dflt : PyVal) : PyVal :=
  match d with
  | [] => dflt
  | (k1, v) :: rest => if k1 = k then v else pyGet rest k dflt

/-- Projection used when a retrieved value is assigned to a string field.
Python performs a raw assignment; on any value produced by to_dict the
projection is the identity on the stored string. -/
def PyVal.asStr : PyVal → Str
  | .pstr s => s
  | _ => []

/-- Projection to a character-state map (see PyVal.asStr). -/
def PyVal.asStates : PyVal → List (Str × CharState)
  | .pstates m => m
  | _ => []

/-- Projection to a plot-point list (see PyVal.asStr). -/
def PyVal.asPlots : PyVal → List PlotPoint
  | .pplots l => l
  | _ => []

/-- Projection to a string list (see PyVal.asStr). -/
def PyVal.asStrList : PyVal → List Str
  | .pstrlist l => l
  | _ => []

/-- text_generator.py lines 161-177: StoryContext.to_dict. -/
def StoryContext.to_dict (c : StoryContext) : List (Str × PyVal) :=
  [ (str "story_summary", .pstr c.story_summary),
    (str "character_states", .pstates c.character_states),
    (str "plot_points", .pplots c.plot_points),
    (str "themes_developed", .pstrlist c.themes_developed),
    (str "mood_progression", .pstrlist c.mood_progression),
    (str "key_locations", .pstrlist c.key_locations),
    (str "story_tensions", .pstrlist c.story_tensions),
    (str "page_summaries", .pstrlist c.page_summaries) ]

/-- text_generator.py lines 179-199: StoryContext.from_dict, reading each key
with `data.get(key, default)`. -/
def StoryContext.from_dict (d : List (Str × PyVal)) : StoryContext :=
  { story_summary := (pyGet d (str "story_summary") (.pstr [])).asStr
    character_states := (pyGet d (str "character_states") (.pstates [])).asStates
    plot_points := (pyGet d (str "plot_points") (.pplots [])).asPlots
    themes_developed := (pyGet d (str "themes_developed") (.pstrlist [])).asStrList
    mood_progression := (pyGet d (str "mood_progression") (.pstrlist [])).asStrList
    key_locations := (pyGet d (str "key_locations") (.pstrlist [])).asStrList
    story_tensions := (pyGet d (str "story_tensions") (.pstrlist [])).asStrList
    page_summaries := (pyGet d (str "page_summaries") (.pstrlist [])).asStrList }

/-- C9: serialization to the dictionary record and back loses nothing: for
every StoryContext value, from_dict (to_dict c) agrees with c on all eight
tracked fields. -/
theorem storycontext_roundtrip (c : StoryContext) :
    StoryContext.from_dict (StoryContext.to_dict c) = c := by
  cases c
  rfl

/- ### C4: style-reference chaining in ImageGenerator
(src/src/content_generation/image_generator.py) -/

/-- Outcome of one external image request made through the Ideogram client:
either it returns a path (whose file may or may not exist on disk) or it
raises. -/
inductive ImgOutcome where
  | ok (path : Str) (onDisk : Bool)
  | raises
deriving DecidableEq, Repr

/-- Page record as read by generate_all_page_images (`page_number`,
`page_type` with their `.get` defaults applied). -/
structure PageReq where
  page_number : Nat
  page_type : Str
deriving DecidableEq, Repr

/-- One attempted image request, with the style reference that was passed to
the external client for it. -/
structure ImgCall where
  is_cover : Bool
  page_number : Nat
  ref_passed : Option Str
deriving DecidableEq, Repr

/-- image_generator.py lines 126-140, the reference logic of
generate_page_image: the current `reference_image_path` is passed to the
client; after the call, if no reference was set and the returned path exists,
it becomes the reference.  Returns (new reference, result if no exception). -/
def generate_page_image_ref (ref : Option Str) (out : ImgOutcome) :
    Option Str × Option Str :=
  match out with
  | .raises => (ref, none)
  | .ok p onDisk =>
      ((if ref = none && onDisk then some p else ref), some p)

/-- image_generator.py lines 210-231: the per-page loop of
generate_all_page_images.  `k` numbers the attempted (non-skipped) page
requests, whose outcomes are given by `page_out`.  Returns the final
reference, the trace of attempted calls, and the page-number/path results. -/
def run_page_requests (page_out : Nat → ImgOutcome) (include_cover : Bool) :
    List PageReq → Nat → Option Str →
    Option Str × List ImgCall × List (Nat × Str)
  | [], _, ref => (ref, [], [])
  | pd :: rest, k, ref =>
    if pd.page_type = str "cover" && include_cover then
      run_page_requests page_out include_cover rest k ref
    else
      let out := page_out k
      let call : ImgCall := ⟨false, pd.page_number, ref⟩
      let step := generate_page_image_ref ref out
      let tail := run_page_requests page_out include_cover rest (k + 1) step.1
      (tail.1, call :: tail.2.1,
        (match step.2 with
         | some p => [(pd.page_number, p)]
         | none => []) ++ tail.2.2)

/-- image_generator.py lines 196-233: generate_all_page_images.  The cover is
generated first (via generate_book_cover, which passes the current reference
and never updates it); then every non-cover page is generated in order.
Returns the final reference, the trace of calls, and the results dict. -/
def generate_all_page_images (include_cover : Bool) (cover_out : ImgOutcome)
    (page_out : Nat → ImgOutcome) (pages : List PageReq) :
    Option Str × List ImgCall × List (Nat × Str) :=
  let ref0 : Option Str := none
  let coverCalls : List ImgCall :=
    if include_cover then [⟨true, 0, ref0⟩] else []
  let coverImgs : List (Nat × Str) :=
    if include_cover then
      match cover_out with
      | .ok p _ => [(0, p)]
      | .raises => []
    else []
  let body := run_page_requests page_out include_cover pages 0 ref0
  (body.1, coverCalls ++ body.2.1, coverImgs ++ body.2.2)

/-- Reference available to the k-th attempted page request: the path of the
first earlier page request that returned an existing file. -/
def first_page_success (page_out : Nat → ImgOutcome) : Nat → Option Str
  | 0 => none
  | k + 1 =>
    match first_page_success page_out k with
    | some p => some p
    | none =>
      match page_out k with
      | .ok p true => some p
      | _ => none

/- ### C6: retry policy (src/src/ai_clients/ideogram_client.py lines 163-173,
src/agents/image_creator_agent.py lines 131-171) -/

/-- ideogram_client.py lines 163-173: the image-download loop inside
generate_image.  `succ a` tells whether download attempt `a` succeeds; the
argument list is the remaining `range(3)` values.  Returns (number of
attempts made, list of sleep durations taken, whether the download
succeeded). -/
def download_attempts (succ : Nat → Bool) : List Nat → Nat × List Nat × Bool
  | [] => (0, [], false)
  | a :: rest =>
    if succ a then (1, [], true)
    else if rest = [] then (1, [], false)
    else
      let t := download_attempts succ rest
      (t.1 + 1, 2 :: t.2.1, t.2.2)

/-- The download retry loop as run by generate_image: `for attempt in
range(3)`. -/
def generate_image_download (succ : Nat → Bool) : Nat × List Nat × Bool :=
  download_attempts succ [0, 1, 2]

/-- image_creator_agent.py lines 131-171, control skeleton of
_generate_single_image: the DALL-E call inside the `try` block is issued
exactly once (`attempt_succeeds 0`); on any exception the code goes directly
to _create_fallback_image.  Result: `some true` = DALL-E image, `some false`
= fallback image, `none` = even the fallback raised; paired with the number
of DALL-E requests issued. -/
def generate_single_image_control (attempt_succeeds : Nat → Bool)
    (fallback_ok : Bool) : Option Bool × Nat :=
  if attempt_succeeds 0 then (some true, 1)
  else ((if fallback_ok then some false else none), 1)

/- ### C7 / C10: ImageCreatorAgent.create_images
(src/agents/image_creator_agent.py lines 103-279) -/

/-- image_creator_agent.py line 116: `placeholder_id.replace(" ", "_").lower()`. -/
def filename_base (pid : Str) : Str :=
  (pid.map (fun c => if c = ' ' then '_' else c)).map Char.toLower

/-- image_creator_agent.py lines 116-119: the output path
`os.path.join(project_output_dir, f"{base}_{suffix}.png")`. -/
def output_path (dir pid suffix : Str) : Str :=
  dir ++ str "/" ++ filename_base pid ++ str "_" ++ suffix ++ str ".png"

/-- image_creator_agent.py lines 122-126: prompt plus style guide, truncated
to the DALL-E limit. -/
def enhanced_prompt (prompt style : Str) : Str :=
  let e := prompt ++ str ". Style: " ++ style
  if 4000 < e.length then e.take 3997 ++ str "..." else e

/-- image_creator_agent.py lines 103-171 with lines 173-229:
_generate_single_image.  `dalleOk` is whether the DALL-E call and download
succeed; on failure, `fallbackOk` is whether the local fallback drawing
succeeds (lines 187-229); if even that raises, the function returns None. -/
def generate_single_image (dalleOk fallbackOk : Bool)
    (dir suffix pid prompt style : Str) : Option GeneratedImage :=
  let op := output_path dir pid suffix
  if dalleOk then some ⟨pid, enhanced_prompt prompt style, op, none⟩
  else if fallbackOk then some ⟨pid, prompt, op, none⟩
  else none

/-- image_creator_agent.py lines 231-279: create_images.  Placeholder `i`
uses request index `i`; the cover uses index `placeholders.length`.  Results
that come back None are dropped (`if img: generated_images.append(img)`). -/
def create_images (dalle fb : Nat → Bool) (suffix : Nat → Str)
    (dir style cover_concept : Str) (phs : List ImagePlaceholder) :
    List GeneratedImage :=
  (phs.enum.filterMap fun ip =>
    generate_single_image (dalle ip.1) (fb ip.1) dir (suffix ip.1)
      ip.2.id ip.2.description style)
  ++ (match generate_single_image (dalle phs.length) (fb phs.length) dir
        (suffix phs.length) (str "cover") cover_concept style with
      | some c => [c]
      | none => [])

/-- workflows/book_creation_workflow.py lines 301-307: the cover-selection
filter used by _create_pdf. -/
def cover_filter (imgs : List GeneratedImage) : List GeneratedImage :=
  imgs.filter fun img =>
    img.placeholder_id = str "cover" && !img.image_path.isEmpty
      && img.error_message = none

/- ### Proofs for C4 -/

/-- Advancing the reference by one processed page request matches the
first-success recursion. -/
lemma generate_page_image_ref_fps (po : Nat → ImgOutcome) (k : Nat) :
    (generate_page_image_ref (first_page_success po k) (po k)).1 =
      first_page_success po (k + 1) := by
  cases h : po k with
  | raises =>
    rcases hk : first_page_success po k with _ | q <;>
      simp [generate_page_image_ref, first_page_success, hk, h]
  | ok p onDisk =>
    rcases hk : first_page_success po k with _ | q <;> cases onDisk <;>
      simp [generate_page_image_ref, first_page_success, hk, h]

/-- Number of page requests actually attempted (cover rows may be skipped). -/
def attempted (include_cover : Bool) (pages : List PageReq) : Nat :=
  (pages.filter fun pd =>
    !(pd.page_type = str "cover" && include_cover)).length

/-- Invariant of the page-request loop: starting at request index `k` with the
reference produced by the first `k` requests, every attempted call receives
the first-success reference of the requests before it, and the loop ends with
the first-success reference of all requests. -/
lemma run_page_requests_refs (po : Nat → ImgOutcome) (ic : Bool)
    (pages : List PageReq) : ∀ k : Nat,
    (∀ j c, (run_page_requests po ic pages k
        (first_page_success po k)).2.1.get? j = some c →
      c.ref_passed = first_page_success po (k + j)) ∧
    (run_page_requests po ic pages k (first_page_success po k)).1 =
      first_page_success po (k + attempted ic pages) := by
  induction pages with
  | nil => intro k; simp [run_page_requests, attempted]
  | cons pd rest ih =>
    intro k
    by_cases hskip : (pd.page_type = str "cover" && ic) = true
    · have h1 := ih k
      have hpa : (!(decide (pd.page_type = str "cover") && ic)) = false := by
        rw [hskip]; rfl
      have ha : attempted ic (pd :: rest) = attempted ic rest := by
        simp only [attempted, List.filter_cons, hpa, Bool.false_eq_true,
          if_false]
      have hr : run_page_requests po ic (pd :: rest) k
            (first_page_success po k) =
          run_page_requests po ic rest k (first_page_success po k) := by
        simp [run_page_requests, hskip]
      rw [hr, ha]
      exact h1
    · have hb : (decide (pd.page_type = str "cover") && ic) = false := by
        revert hskip
        cases hq : (decide (pd.page_type = str "cover") && ic) <;> simp
      have hpa : (!(decide (pd.page_type = str "cover") && ic)) = true := by
        rw [hb]; rfl
      have hstep := generate_page_image_ref_fps po k
      have h1 := ih (k + 1)
      have ha : attempted ic (pd :: rest) = attempted ic rest + 1 := by
        simp only [attempted, List.filter_cons, hpa, if_true,
          List.length_cons]
      constructor
      · intro j c hc
        match j with
        | 0 =>
          simp [run_page_requests, hskip] at hc
          simp [← hc]
        | j + 1 =>
          simp only [run_page_requests, hskip, Bool.false_eq_true,
            if_false, List.get?_cons_succ] at hc
          rw [hstep] at hc
          have := h1.1 j c hc
          rw [this]
          congr 1
          omega
      · simp only [run_page_requests, hskip, Bool.false_eq_true, if_false]
        rw [hstep, h1.2, ha]
        congr 1
        omega

/-- C4 (amended): in generate_all_page_images the cover request is issued
first and always receives the initial, unset reference; generate_book_cover
never updates the reference; the style reference adopted is the path of the
first page-image request that returns an existing file, it is never changed
afterwards, and every attempted page request receives exactly the
first-success reference of the page requests issued before it. -/
theorem style_reference_chaining_amended (ic : Bool) (cover_out : ImgOutcome)
    (po : Nat → ImgOutcome) (pages : List PageReq) :
    (∀ c ∈ (generate_all_page_images ic cover_out po pages).2.1,
        c.is_cover = true → c.ref_passed = none) ∧
    (∀ j c,
      ((generate_all_page_images ic cover_out po pages).2.1.filter
          (fun c => !c.is_cover)).get? j = some c →
        c.ref_passed = first_page_success po j) ∧
    (generate_all_page_images ic cover_out po pages).1 =
      first_page_success po (attempted ic pages) := by
  have hmain := run_page_requests_refs po ic pages 0
  have hfps0 : first_page_success po 0 = none := rfl
  have hpagecalls : ∀ j c,
      (run_page_requests po ic pages 0 none).2.1.get? j = some c →
        c.ref_passed = first_page_success po j := by
    intro j c hc
    have := hmain.1 j c (by rw [hfps0] at hmain ⊢; exact hc)
    simpa using this
  have hnocover : ∀ c ∈ (run_page_requests po ic pages 0 none).2.1,
      c.is_cover = false := by
    have : ∀ (ps : List PageReq) (k : Nat) (r : Option Str),
        ∀ c ∈ (run_page_requests po ic ps k r).2.1, c.is_cover = false := by
      intro ps
      induction ps with
      | nil => intro k r c hc; simp [run_page_requests] at hc
      | cons pd rest ih =>
        intro k r c hc
        by_cases hskip : (pd.page_type = str "cover" && ic) = true
        · simp only [run_page_requests, hskip, if_true] at hc
          exact ih k r c hc
        · simp only [run_page_requests, hskip, Bool.false_eq_true,
            if_false, List.mem_cons] at hc
          rcases hc with rfl | hc
          · rfl
          · exact ih (k + 1) _ c hc
    exact this pages 0 none
  refine ⟨?_, ?_, ?_⟩
  · intro c hc hcov
    simp only [generate_all_page_images, List.mem_append] at hc
    rcases hc with hc | hc
    · rcases ic with _ | _
      · simp at hc
      · simp at hc
        rw [hc]
    · exact absurd hcov (by simp [hnocover c hc])
  · intro j c hc
    have hfil : ((generate_all_page_images ic cover_out po pages).2.1.filter
        (fun c => !c.is_cover)) =
        (run_page_requests po ic pages 0 none).2.1 := by
      simp only [generate_all_page_images]
      rw [List.filter_append]
      have h1 : (if ic then [ImgCall.mk true 0 none] else []).filter
          (fun c => !c.is_cover) = [] := by
        rcases ic with _ | _ <;> simp
      rw [h1, List.nil_append]
      apply List.filter_eq_self.2
      intro c hc
      simp [hnocover c hc]
    rw [hfil] at hc
    exact hpagecalls j c hc
  · simp only [generate_all_page_images]
    have := hmain.2
    rw [hfps0] at this
    simpa using this

/-- Closed instantiation of style_reference_chaining_amended: with a
successful cover and two successful page requests, the final adopted
reference equals the first page-request success, which is the first page's
path. -/
theorem style_reference_chaining_amended_witness :
    (generate_all_page_images true (.ok (str "cover.png") true)
        (fun k => .ok (if k = 0 then str "p1.png" else str "p2.png") true)
        [⟨1, str "story"⟩, ⟨2, str "story"⟩]).1 =
      first_page_success
        (fun k => .ok (if k = 0 then str "p1.png" else str "p2.png") true)
        (attempted true [⟨1, str "story"⟩, ⟨2, str "story"⟩]) ∧
    first_page_success
        (fun k => .ok (if k = 0 then str "p1.png" else str "p2.png") true)
        (attempted true [⟨1, str "story"⟩, ⟨2, str "story"⟩]) =
      some (str "p1.png") :=
  ⟨(style_reference_chaining_amended true (.ok (str "cover.png") true)
      (fun k => .ok (if k = 0 then str "p1.png" else str "p2.png") true)
      [⟨1, str "story"⟩, ⟨2, str "story"⟩]).2.2, by decide⟩

/-- Concrete page requests used to refute the claim as stated. -/
def c4_pages : List PageReq := [⟨1, str "story"⟩, ⟨2, str "story"⟩]

/-- Concrete page-request outcomes used to refute the claim as stated. -/
def c4_po : Nat → ImgOutcome :=
  fun k => .ok (if k = 0 then str "p1.png" else str "p2.png") true

/-- C4 counterexample: with the cover generated successfully first and two
successful page requests, the first request that succeeds overall is the
cover, yet the cover call receives no reference, the run adopts the first
page image (p1.png, not cover.png) as the reference, and passes p1.png (not
cover.png) to the second page request — refuting the claim that the adopted
reference is the path of the first successful request and that the cover
request receives it. -/
theorem style_reference_chaining_cex :
    generate_all_page_images true (.ok (str "cover.png") true) c4_po c4_pages
      = (some (str "p1.png"),
         [⟨true, 0, none⟩, ⟨false, 1, none⟩, ⟨false, 2, some (str "p1.png")⟩],
         [(0, str "cover.png"), (1, str "p1.png"), (2, str "p2.png")]) ∧
    some (str "p1.png") ≠ some (str "cover.png") := by
  constructor
  · rfl
  · decide

/- ### Proofs for C6 -/

/-- C6 (amended): only the image download inside
IdeogramClient.generate_image is retried: at most 3 attempts, each backoff
sleep is exactly 2 seconds, one sleep between consecutive attempts (none
after the last), the download succeeds exactly when one of the three
attempts succeeds, and an exhausted download makes all 3 attempts.  The
DALL-E request in ImageCreatorAgent._generate_single_image is issued exactly
once, never retried. -/
theorem retry_policy_amended (succ dalle : Nat → Bool) (fb : Bool) :
    (generate_image_download succ).1 ≤ 3 ∧
    ((generate_image_download succ).2.2 = true ↔
      (succ 0 || succ 1 || succ 2) = true) ∧
    (∀ s ∈ (generate_image_download succ).2.1, s = 2) ∧
    (generate_image_download succ).2.1.length =
      (generate_image_download succ).1 - 1 ∧
    ((generate_image_download succ).2.2 = false →
      (generate_image_download succ).1 = 3) ∧
    (generate_single_image_control dalle fb).2 = 1 := by
  have hlast : (generate_single_image_control dalle fb).2 = 1 := by
    cases h : dalle 0 <;> simp [generate_single_image_control, h]
  cases h0 : succ 0 <;> cases h1 : succ 1 <;> cases h2 : succ 2 <;>
    simp [generate_image_download, download_attempts, h0, h1, h2, hlast]

/-- Closed instantiation of retry_policy_amended: a download succeeding
only on its third attempt is retried to success within the 3-attempt
bound, while the DALL-E generation request is issued exactly once. -/
theorem retry_policy_amended_witness :
    (generate_image_download (fun k => decide (k = 2))).1 ≤ 3 ∧
    ((generate_image_download (fun k => decide (k = 2))).2.2 = true ↔
      ((fun k => decide (k = 2)) 0 || (fun k => decide (k = 2)) 1 ||
        (fun k => decide (k = 2)) 2) = true) ∧
    (generate_single_image_control (fun _ => false) true).2 = 1 := by
  obtain ⟨h1, h2, _, _, _, h6⟩ :=
    retry_policy_amended (fun k => decide (k = 2)) (fun _ => false) true
  exact ⟨h1, h2, h6⟩

/-- C6 counterexample: a DALL-E request whose first attempt fails but whose
second and third attempts would succeed is nevertheless treated as failed
after a single issued request (the fallback image is substituted), refuting
the claim that each image-generation request is attempted up to 3 times
before being treated as failed. -/
theorem retry_policy_cex :
    generate_single_image_control (fun k => decide (1 ≤ k)) true
      = (some false, 1) ∧ (1 : Nat) ≠ 3 := by
  constructor
  · rfl
  · decide

/- ### Proofs for C7 -/

/-- Number of result entries carrying a given placeholder id. -/
def count_id (imgs : List GeneratedImage) (pid : Str) : Nat :=
  (imgs.filter fun g => decide (g.placeholder_id = pid)).length

/-- When the local fallback drawing succeeds, _generate_single_image always
returns a record carrying the requested placeholder id. -/
lemma generate_single_image_some (dalleOk : Bool) (dir suffix pid prompt style : Str) :
    ∃ g, generate_single_image dalleOk true dir suffix pid prompt style = some g ∧
      g.placeholder_id = pid := by
  cases dalleOk <;> simp [generate_single_image]

/-- The ids of the create_images output, in order, when fallback always
succeeds: the input placeholder ids followed by "cover". -/
lemma create_images_ids (dalle : Nat → Bool) (suffix : Nat → Str)
    (dir style cc : Str) (phs : List ImagePlaceholder) :
    (create_images dalle (fun _ => true) suffix dir style cc phs).map
        (fun g => g.placeholder_id) =
      phs.map (fun p => p.id) ++ [str "cover"] := by
  simp only [create_images, List.map_append]
  congr 1
  · have : ∀ (start : Nat),
        ((List.enumFrom start phs).filterMap fun ip =>
          generate_single_image (dalle ip.1) true dir (suffix ip.1)
            ip.2.id ip.2.description style).map (fun g => g.placeholder_id) =
          phs.map (fun p => p.id) := by
      induction phs with
      | nil => intro start; simp
      | cons p rest ih =>
        intro start
        obtain ⟨g, hg, hid⟩ := generate_single_image_some (dalle start) dir
          (suffix start) p.id p.description style
        simp [List.enumFrom, hg, hid, ih (start + 1)]
    simpa [List.enum] using this 0
  · obtain ⟨g, hg, hid⟩ := generate_single_image_some (dalle phs.length) dir
      (suffix phs.length) (str "cover") cc style
    simp [hg, hid]

/-- Counting a placeholder id in the output equals counting it among the
output ids. -/
lemma count_id_eq_count (imgs : List GeneratedImage) (pid : Str) :
    count_id imgs pid =
      ((imgs.map (fun g => g.placeholder_id)).filter
        (fun x => decide (x = pid))).length := by
  induction imgs with
  | nil => rfl
  | cons g rest ih =>
    by_cases h : g.placeholder_id = pid <;>
      simp [count_id, h, List.filter_cons] <;>
      simpa [count_id] using ih

/-- In a duplicate-free list, a member is hit by the equality filter exactly
once. -/
lemma filter_eq_length_one (l : List Str) (pid : Str) (hnd : l.Nodup)
    (hm : pid ∈ l) : (l.filter fun x => decide (x = pid)).length = 1 := by
  induction l with
  | nil => simp at hm
  | cons a t ih =>
    rcases List.mem_cons.1 hm with rfl | hm2
    · have hnt : pid ∉ t := (List.nodup_cons.1 hnd).1
      have : t.filter (fun x => decide (x = pid)) = [] := by
        rw [List.filter_eq_nil_iff]
        intro b hb
        simp only [decide_eq_true_eq]
        intro hbp
        exact hnt (hbp ▸ hb)
      simp [List.filter_cons, this]
    · have ha : a ≠ pid := by
        rintro rfl
        exact (List.nodup_cons.1 hnd).1 hm2
      simp [List.filter_cons, ha, ih (List.nodup_cons.1 hnd).2 hm2]

/-- A non-member is never hit by the equality filter. -/
lemma filter_eq_length_zero (l : List Str) (pid : Str) (hm : pid ∉ l) :
    (l.filter fun x => decide (x = pid)).length = 0 := by
  have : l.filter (fun x => decide (x = pid)) = [] := by
    rw [List.filter_eq_nil_iff]
    intro b hb
    simp only [decide_eq_true_eq]
    intro hbp
    exact hm (hbp ▸ hb)
  simp [this]

/-- C7 (amended): for every list of image placeholders with pairwise-distinct
ids none of which is "cover", and every behavior of the DALL-E backend
(including persistent failure), provided the local fallback drawing succeeds,
create_images returns exactly one GeneratedImage per input placeholder id
plus exactly one with id "cover", and its length is the placeholder count
plus one. -/
theorem create_images_complete (dalle : Nat → Bool) (suffix : Nat → Str)
    (dir style cc : Str) (phs : List ImagePlaceholder)
    (hnodup : (phs.map (fun p => p.id)).Nodup)
    (hcov : str "cover" ∉ phs.map (fun p => p.id)) :
    (∀ pid ∈ phs.map (fun p => p.id),
      count_id (create_images dalle (fun _ => true) suffix dir style cc phs)
        pid = 1) ∧
    count_id (create_images dalle (fun _ => true) suffix dir style cc phs)
      (str "cover") = 1 ∧
    (create_images dalle (fun _ => true) suffix dir style cc phs).length =
      phs.length + 1 := by
  have hids := create_images_ids dalle suffix dir style cc phs
  refine ⟨?_, ?_, ?_⟩
  · intro pid hpid
    rw [count_id_eq_count, hids, List.filter_append, List.length_append]
    have h1 := filter_eq_length_one (phs.map (fun p => p.id)) pid hnodup hpid
    have h2 : pid ≠ str "cover" := fun h => hcov (h ▸ hpid)
    have h3 : (([str "cover"] : List Str).filter
        (fun x => decide (x = pid))).length = 0 :=
      filter_eq_length_zero _ _ (by simpa using h2)
    omega
  · rw [count_id_eq_count, hids, List.filter_append, List.length_append]
    have h1 := filter_eq_length_zero (phs.map (fun p => p.id))
      (str "cover") hcov
    simp [h1]
  · have := congrArg List.length hids
    simpa using this

/-- Closed instantiation of create_images_complete at a two-placeholder
plan with a persistently failing backend. -/
theorem create_images_complete_witness :
    (∀ pid ∈ ([⟨str "a", str "da"⟩, ⟨str "b", str "db"⟩] :
        List ImagePlaceholder).map (fun p => p.id),
      count_id (create_images (fun _ => false) (fun _ => true)
        (fun _ => str "s") (str "o") (str "st") (str "cc")
        [⟨str "a", str "da"⟩, ⟨str "b", str "db"⟩]) pid = 1) ∧
    count_id (create_images (fun _ => false) (fun _ => true)
      (fun _ => str "s") (str "o") (str "st") (str "cc")
      [⟨str "a", str "da"⟩, ⟨str "b", str "db"⟩]) (str "cover") = 1 ∧
    (create_images (fun _ => false) (fun _ => true)
      (fun _ => str "s") (str "o") (str "st") (str "cc")
      [⟨str "a", str "da"⟩, ⟨str "b", str "db"⟩]).length = 2 + 1 :=
  create_images_complete (fun _ => false) (fun _ => str "s") (str "o")
    (str "st") (str "cc") [⟨str "a", str "da"⟩, ⟨str "b", str "db"⟩]
    (by decide) (by decide)

/-- C7 counterexample: with two input placeholders sharing the id "p" and a
fully successful backend, the output contains two records with placeholder_id
"p", refuting the claim that the result contains exactly one GeneratedImage
per input placeholder id for every list of image placeholders. -/
theorem create_images_cex :
    count_id (create_images (fun _ => true) (fun _ => true)
      (fun _ => str "s") (str "o") (str "st") (str "cc")
      [⟨str "p", str "d"⟩, ⟨str "p", str "d"⟩]) (str "p") = 2 := by
  decide

/- ### Proofs for C10 -/

/-- C10: every GeneratedImage returned by create_images — under any backend
and fallback behavior — has error_message None and a non-empty image path, so
the workflow's cover-selection filter on error_message and image_path never
excludes an entry: it reduces to the placeholder_id test alone. -/
theorem create_images_no_error_records (dalle fb : Nat → Bool)
    (suffix : Nat → Str) (dir style cc : Str) (phs : List ImagePlaceholder) :
    (∀ g ∈ create_images dalle fb suffix dir style cc phs,
      g.error_message = none ∧ g.image_path ≠ []) ∧
    cover_filter (create_images dalle fb suffix dir style cc phs) =
      (create_images dalle fb suffix dir style cc phs).filter
        (fun g => decide (g.placeholder_id = str "cover")) := by
  have hsingle : ∀ (dOk fOk : Bool) (sfx pid prompt : Str) (g : GeneratedImage),
      generate_single_image dOk fOk dir sfx pid prompt style = some g →
      g.error_message = none ∧ g.image_path ≠ [] := by
    intro dOk fOk sfx pid prompt g hg
    have hop : output_path dir pid sfx ≠ [] := by
      simp [output_path, str]
    cases dOk <;> cases fOk <;>
      simp [generate_single_image] at hg <;>
      simp [← hg, hop]
  have hmem : ∀ g ∈ create_images dalle fb suffix dir style cc phs,
      g.error_message = none ∧ g.image_path ≠ [] := by
    intro g hg
    simp only [create_images, List.mem_append] at hg
    rcases hg with hg | hg
    · obtain ⟨ip, _, hip⟩ := List.mem_filterMap.1 hg
      exact hsingle _ _ _ _ _ g hip
    · rcases hcov : generate_single_image (dalle phs.length) (fb phs.length)
        dir (suffix phs.length) (str "cover") cc style with _ | c
      · rw [hcov] at hg; simp at hg
      · rw [hcov] at hg
        simp only [List.mem_singleton] at hg
        exact hg ▸ hsingle _ _ _ _ _ c hcov
  refine ⟨hmem, ?_⟩
  apply List.filter_congr
  intro g hg
  obtain ⟨herr, hpath⟩ := hmem g hg
  simp [cover_filter, herr, hpath, List.isEmpty_iff]

/-- Closed instantiation of create_images_no_error_records: the single
fallback record of a one-placeholder failing run has no error message and a
non-empty path. -/
theorem create_images_no_error_records_witness :
    ∀ g ∈ create_images (fun _ => false) (fun _ => true) (fun _ => str "s")
      (str "o") (str "st") (str "cc") [⟨str "a", str "da"⟩],
      g.error_message = none ∧ g.image_path ≠ [] :=
  (create_images_no_error_records (fun _ => false) (fun _ => true)
    (fun _ => str "s") (str "o") (str "st") (str "cc")
    [⟨str "a", str "da"⟩]).1

/- ### C5: StoryContext.update_from_page
(src/src/content_generation/text_generator.py lines 35-127) -/

/-- Page record as read by update_from_page / generate_page_text, with the
`.get` defaults applied. -/
structure PageData where
  page_number : Nat
  page_type : Str
  scene_description : Str
  characters_present : List Str
  visual_elements : List Str
deriving DecidableEq, Repr

/-- text_generator.py line 76: the location keyword bucket. -/
def location_words : List Str :=
  [str "garden", str "house", str "forest", str "park", str "school"]

/-- text_generator.py line 84: the plot-point keyword bucket. -/
def action_indicators : List Str :=
  [str "decided", str "found", str "discovered", str "learned",
   str "helped", str "shared", str "gave", str "asked"]

/-- text_generator.py lines 106-112: the mood keyword buckets, in dict
insertion order. -/
def mood_indicators : List (Str × List Str) :=
  [ (str "happy", [str "happy", str "joy", str "smile", str "laugh",
      str "excited", str "cheerful"]),
    (str "sad", [str "sad", str "cry", str "worried", str "upset",
      str "disappointed"]),
    (str "curious", [str "wonder", str "curious", str "explore",
      str "discover", str "question"]),
    (str "determined", [str "decided", str "determined", str "tried",
      str "worked", str "effort"]),
    (str "peaceful", [str "calm", str "peaceful", str "quiet",
      str "gentle", str "serene"]) ]

/-- text_generator.py line 124: the tension keyword bucket. -/
def tension_indicators : List Str :=
  [str "problem", str "trouble", str "worried", str "afraid",
   str "challenge", str "difficult", str "lost", str "broke"]

/-- Python `str.split()`: split on whitespace runs, no empty parts. -/
def pySplitWSAux : Str → Str → List Str
  | [], acc => if acc = [] then [] else [acc.reverse]
  | c :: t, acc =>
    if isPyWS c then
      if acc = [] then pySplitWSAux t []
      else acc.reverse :: pySplitWSAux t []
    else pySplitWSAux t (c :: acc)

/-- Python `str.split()` with no separator argument. -/
def pySplitWS (s : Str) : List Str := pySplitWSAux s []

/-- Membership of a key in the character-state dict
(`character not in self.character_states`). -/
def alContains (m : List (Str × CharState)) (k : Str) : Bool :=
  m.any fun p => decide (p.1 = k)

/-- Assignment `self.character_states[character]["location"] = element`. -/
def alUpdateLoc (m : List (Str × CharState)) (k : Str) (loc : Str) :
    List (Str × CharState) :=
  m.map fun p => if p.1 = k then (p.1, { p.2 with location := loc }) else p

/-- text_generator.py lines 65-71: the initial state of a newly seen
character. -/
def initCharState (page_number : Nat) : CharState :=
  ⟨page_number, [], str "neutral", [], []⟩

/-- text_generator.py lines 63-79: the body of the characters-present loop
for one character: register the character if unseen, then scan the visual
elements for location keywords, updating the character's location and the
key-locations list. -/
def charLocFold (page_number : Nat) (visual_elements : List Str) (char : Str)
    (st : List (Str × CharState) × List Str) :
    List (Str × CharState) × List Str :=
  let cs0 := if alContains st.1 char then st.1
             else st.1 ++ [(char, initCharState page_number)]
  visual_elements.foldl
    (fun acc el =>
      if location_words.any (fun w => containsSub w (pyLower el)) then
        (alUpdateLoc acc.1 char el,
         if el ∈ acc.2 then acc.2 else acc.2 ++ [el])
      else acc)
    (cs0, st.2)

/-- text_generator.py lines 35-127: StoryContext.update_from_page. -/
def update_from_page (c : StoryContext) (pd : PageData) (page_text : Str)
    (book_themes : List Str) : StoryContext :=
  let page_number := pd.page_number
  let scene_description := pd.scene_description
  let page_summary :=
    str "Page " ++ natStr page_number ++ str ": " ++ scene_description
  let page_summaries := c.page_summaries ++ [page_summary]
  let story_summary := joinSep (str " -> ") (lastN 3 page_summaries)
  let charLoc := pd.characters_present.foldl
    (fun st ch => charLocFold page_number pd.visual_elements ch st)
    (c.character_states, c.key_locations)
  let plot_points :=
    if page_text ≠ [] then
      match action_indicators.find?
          (fun ind => containsSub ind (pyLower page_text)) with
      | some ind =>
        c.plot_points ++
          [⟨page_number, ind, scene_description.take 100,
            pd.characters_present⟩]
      | none => c.plot_points
    else c.plot_points
  let themes_developed := book_themes.foldl
    (fun td theme =>
      if theme ∉ td ∧ (pySplitWS theme).any
          (fun w => containsSub w (pyLower page_text)) then
        td ++ [theme]
      else td)
    c.themes_developed
  let current_mood :=
    match mood_indicators.find?
        (fun mi => mi.2.any fun ind => containsSub ind (pyLower page_text)) with
    | some mi => mi.1
    | none => str "neutral"
  let mood_progression :=
    if c.mood_progression = [] ∨
        c.mood_progression.getLast? ≠ some current_mood then
      c.mood_progression ++ [current_mood]
    else c.mood_progression
  let story_tensions := tension_indicators.foldl
    (fun ts ind =>
      if containsSub ind (pyLower page_text) ∧ ind ∉ ts then
        ts ++ [str "Page " ++ natStr page_number ++ str ": " ++ ind]
      else ts)
    c.story_tensions
  { story_summary := story_summary
    character_states := charLoc.1
    plot_points := plot_points
    themes_developed := themes_developed
    mood_progression := mood_progression
    key_locations := charLoc.2
    story_tensions := story_tensions
    page_summaries := page_summaries }

/-- text_generator.py lines 129-159: StoryContext.get_context_for_generation. -/
def get_context_for_generation (c : StoryContext) : Str :=
  let parts1 : List Str :=
    if c.story_summary ≠ [] then
      [str "Story so far: " ++ c.story_summary] else []
  let parts2 : List Str :=
    if c.character_states ≠ [] then
      [str "Characters: " ++ joinSep (str ", ")
        (c.character_states.map fun p =>
          p.1 ++ (if p.2.location ≠ [] then
            str " (at " ++ p.2.location ++ str ")" else []))]
    else []
  let parts3 : List Str :=
    if c.themes_developed ≠ [] then
      [str "Themes established: " ++ joinSep (str ", ") c.themes_developed]
    else []
  let parts4 : List Str :=
    if c.mood_progression ≠ [] then
      [str "Current mood: " ++ (c.mood_progression.getLast?.getD [])]
    else []
  let parts5 : List Str :=
    if c.story_tensions ≠ [] then
      [str "Story tensions: " ++ joinSep (str "; ")
        (lastN 2 c.story_tensions)]
    else []
  joinSep (str " | ") (parts1 ++ parts2 ++ parts3 ++ parts4 ++ parts5)

/-- A sequence of update_from_page calls, each with its page record,
generated page text and book themes. -/
def run_updates (c : StoryContext) :
    List (PageData × Str × List Str) → StoryContext
  | [] => c
  | (pd, txt, themes) :: rest =>
    run_updates (update_from_page c pd txt themes) rest

/- ### Proofs for C5 -/

/-- Formatted tension entry `f"Page {page_number}: {indicator}"`. -/
def fmtTension (n : Nat) (ind : Str) : Str :=
  str "Page " ++ natStr n ++ str ": " ++ ind

/-- The tension entries contributed by one page. -/
def tension_block (n : Nat) (txt : Str) : List Str :=
  (tension_indicators.filter fun ind => containsSub ind (pyLower txt)).map
    (fun ind => fmtTension n ind)

/-- Splitting digits from a non-digit continuation is unambiguous. -/
lemma digit_append_inj : ∀ (a1 : Str) (a2 b1 b2 : Str),
    (∀ c ∈ a1, c.isDigit = true) → (∀ c ∈ a2, c.isDigit = true) →
    (∀ c, b1.head? = some c → c.isDigit = false) →
    (∀ c, b2.head? = some c → c.isDigit = false) →
    a1 ++ b1 = a2 ++ b2 → a1 = a2 ∧ b1 = b2 := by
  intro a1
  induction a1 with
  | nil =>
    intro a2 b1 b2 _ h2 hb1 _ h
    cases a2 with
    | nil => simpa using h
    | cons c t =>
      simp only [List.nil_append, List.cons_append] at h
      have hcd : c.isDigit = true := h2 c (by simp)
      have : b1.head? = some c := by rw [h]; rfl
      rw [hb1 c this] at hcd
      cases hcd
  | cons c t ih =>
    intro a2 b1 b2 h1 h2 hb1 hb2 h
    cases a2 with
    | nil =>
      simp only [List.cons_append, List.nil_append] at h
      have hcd : c.isDigit = true := h1 c (by simp)
      have : b2.head? = some c := by rw [← h]; rfl
      rw [hb2 c this] at hcd
      cases hcd
    | cons d u =>
      simp only [List.cons_append, List.cons.injEq] at h
      obtain ⟨rfl, h⟩ := h
      obtain ⟨he, hb⟩ := ih u b1 b2 (fun x hx => h1 x (by simp [hx]))
        (fun x hx => h2 x (by simp [hx])) hb1 hb2 h
      exact ⟨by rw [he], hb⟩

/-- Formatted tension entries are uniquely parsed. -/
lemma fmtTension_inj {n m : Nat} {i j : Str}
    (h : fmtTension n i = fmtTension m j) : n = m ∧ i = j := by
  unfold fmtTension at h
  have h2 : natStr n ++ (str ": " ++ i) = natStr m ++ (str ": " ++ j) := by
    have := h
    simp only [str, String.toList] at this ⊢
    simpa [List.append_assoc] using this
  have h3 := digit_append_inj (natStr n) (natStr m) (str ": " ++ i)
    (str ": " ++ j) (natStr_isDigit n) (natStr_isDigit m)
    (by intro c hc; simp [str] at hc; rw [← hc]; decide)
    (by intro c hc; simp [str] at hc; rw [← hc]; decide) h2
  refine ⟨natStr_inj h3.1, ?_⟩
  have := h3.2
  simpa [str] using this

/-- Every formatted tension entry starts with the letter P. -/
lemma fmtTension_head (n : Nat) (ind : Str) :
    (fmtTension n ind).head? = some 'P' := rfl

/-- No tension indicator starts with the letter P. -/
lemma tension_indicators_head :
    ∀ ind ∈ tension_indicators, ind.head? ≠ some 'P' := by
  decide

/-- The tension fold appends exactly the formatted block of matching
indicators, provided every existing entry starts with P and no scanned
indicator does. -/
lemma tension_fold_eq (n : Nat) (txt : Str) :
    ∀ (inds ts : List Str), (∀ e ∈ ts, e.head? = some 'P') →
    (∀ ind ∈ inds, ind.head? ≠ some 'P') →
    inds.foldl
      (fun ts ind =>
        if containsSub ind (pyLower txt) ∧ ind ∉ ts then
          ts ++ [str "Page " ++ natStr n ++ str ": " ++ ind]
        else ts) ts =
      ts ++ (inds.filter fun ind => containsSub ind (pyLower txt)).map
        (fun ind => fmtTension n ind) := by
  intro inds
  induction inds with
  | nil => intro ts _ _; simp
  | cons ind rest ih =>
    intro ts hts hinds
    have hnotin : ind ∉ ts := by
      intro hmem
      exact hinds ind (by simp) (hts ind hmem)
    by_cases hc : containsSub ind (pyLower txt) = true
    · have hstep : (if containsSub ind (pyLower txt) ∧ ind ∉ ts then
          ts ++ [str "Page " ++ natStr n ++ str ": " ++ ind] else ts) =
          ts ++ [fmtTension n ind] := by
        rw [if_pos ⟨hc, hnotin⟩]; rfl
      simp only [List.foldl_cons, hstep]
      rw [ih (ts ++ [fmtTension n ind])
        (by intro e he
            rcases List.mem_append.1 he with he | he
            · exact hts e he
            · simp only [List.mem_singleton] at he
              rw [he]; exact fmtTension_head n ind)
        (fun x hx => hinds x (by simp [hx]))]
      simp [List.filter_cons, hc]
    · have hcf : containsSub ind (pyLower txt) = false := by
        revert hc; cases containsSub ind (pyLower txt) <;> simp
      have hstep : (if containsSub ind (pyLower txt) ∧ ind ∉ ts then
          ts ++ [str "Page " ++ natStr n ++ str ": " ++ ind] else ts) = ts := by
        rw [if_neg]; rintro ⟨hc2, _⟩; rw [hcf] at hc2; cases hc2
      simp only [List.foldl_cons, hstep]
      rw [ih ts hts (fun x hx => hinds x (by simp [hx]))]
      simp [List.filter_cons, hcf]

/-- The story_tensions component of one update. -/
lemma update_tensions (c : StoryContext) (pd : PageData) (txt : Str)
    (th : List Str) (hts : ∀ e ∈ c.story_tensions, e.head? = some 'P') :
    (update_from_page c pd txt th).story_tensions =
      c.story_tensions ++ tension_block pd.page_number txt := by
  show tension_indicators.foldl
    (fun ts ind =>
      if containsSub ind (pyLower txt) ∧ ind ∉ ts then
        ts ++ [str "Page " ++ natStr pd.page_number ++ str ": " ++ ind]
      else ts) c.story_tensions = _
  rw [tension_fold_eq pd.page_number txt tension_indicators c.story_tensions
    hts tension_indicators_head]
  rfl

/-- Accumulated story_tensions of a run from a context whose entries all
start with P: one block per update, in order. -/
lemma run_updates_tensions :
    ∀ (inputs : List (PageData × Str × List Str)) (c : StoryContext),
    (∀ e ∈ c.story_tensions, e.head? = some 'P') →
    (run_updates c inputs).story_tensions =
      c.story_tensions ++
        (inputs.map fun inp => tension_block inp.1.page_number inp.2.1).flatten := by
  intro inputs
  induction inputs with
  | nil => intro c _; simp [run_updates]
  | cons inp rest ih =>
    intro c hc
    obtain ⟨pd, txt, th⟩ := inp
    show (run_updates (update_from_page c pd txt th) rest).story_tensions = _
    rw [ih (update_from_page c pd txt th)
      (by rw [update_tensions c pd txt th hc]
          intro e he
          rcases List.mem_append.1 he with he | he
          · exact hc e he
          · obtain ⟨ind, _, rfl⟩ := List.mem_map.1 he
            exact fmtTension_head pd.page_number ind),
      update_tensions c pd txt th hc]
    simp

/-- One tension block is duplicate-free. -/
lemma tension_block_nodup (n : Nat) (txt : Str) :
    (tension_block n txt).Nodup := by
  apply List.Nodup.map
  · intro i j hij
    exact (fmtTension_inj hij).2
  · exact List.Nodup.filter _ (by decide)

/-- Entries of a block carry its page number. -/
lemma tension_block_mem {n : Nat} {txt : Str} {e : Str}
    (he : e ∈ tension_block n txt) : ∃ ind, e = fmtTension n ind := by
  obtain ⟨ind, _, rfl⟩ := List.mem_map.1 he
  exact ⟨ind, rfl⟩

/-- Joined blocks over pairwise-distinct page numbers are duplicate-free. -/
lemma tension_blocks_nodup :
    ∀ (inputs : List (PageData × Str × List Str)),
    (inputs.map fun inp => inp.1.page_number).Nodup →
    ((inputs.map fun inp => tension_block inp.1.page_number inp.2.1).flatten).Nodup := by
  intro inputs
  induction inputs with
  | nil => intro _; simp
  | cons inp rest ih =>
    intro hnd
    simp only [List.map_cons, List.flatten_cons]
    rw [List.nodup_append]
    refine ⟨tension_block_nodup _ _, ih (List.nodup_cons.1 hnd).2, ?_⟩
    intro e he1 he2
    obtain ⟨ind1, rfl⟩ := tension_block_mem he1
    simp only [List.mem_flatten, List.mem_map] at he2
    obtain ⟨blk, ⟨inp2, hinp2, rfl⟩, hmem⟩ := he2
    obtain ⟨ind2, heq⟩ := tension_block_mem hmem
    have := (fmtTension_inj heq).1
    have hne : inp.1.page_number ∉ rest.map (fun inp => inp.1.page_number) :=
      (List.nodup_cons.1 hnd).1
    exact hne (this ▸ List.mem_map_of_mem (fun inp => inp.1.page_number) hinp2)

/-- Appending one fresh element preserves duplicate-freedom. -/
lemma nodup_append_one {α : Type} {l : List α} {x : α} (h : l.Nodup)
    (hx : x ∉ l) : (l ++ [x]).Nodup := by
  rw [List.nodup_append]
  exact ⟨h, List.nodup_singleton x, by
    intro a ha hax
    simp only [List.mem_singleton] at hax
    exact hx (hax ▸ ha)⟩

/-- Step function for guarded accumulation: either unchanged, or a fresh
element appended.  Such folds preserve duplicate-freedom. -/
lemma nodup_foldl_guard {α : Type} (l : List α) (f : List α → α → List α)
    (hf : ∀ acc x, f acc x = acc ∨ (x ∉ acc ∧ f acc x = acc ++ [x])) :
    ∀ acc : List α, acc.Nodup → (l.foldl f acc).Nodup := by
  induction l with
  | nil => intro acc h; simpa
  | cons x t ih =>
    intro acc h
    simp only [List.foldl_cons]
    rcases hf acc x with heq | ⟨hx, heq⟩
    · rw [heq]; exact ih acc h
    · rw [heq]
      exact ih _ (nodup_append_one h hx)

/-- The themes component of an update preserves duplicate-freedom. -/
lemma update_themes_nodup (c : StoryContext) (pd : PageData) (txt : Str)
    (th : List Str) (h : c.themes_developed.Nodup) :
    (update_from_page c pd txt th).themes_developed.Nodup := by
  show (th.foldl _ c.themes_developed).Nodup
  apply nodup_foldl_guard
  · intro acc x
    by_cases hc : x ∉ acc ∧ (pySplitWS x).any
        (fun w => containsSub w (pyLower txt)) = true
    · right; exact ⟨hc.1, by rw [if_pos hc]⟩
    · left; rw [if_neg hc]
  · exact h

/-- alUpdateLoc does not change the keys of the character dict. -/
lemma alUpdateLoc_keys (m : List (Str × CharState)) (k : Str) (loc : Str) :
    (alUpdateLoc m k loc).map Prod.fst = m.map Prod.fst := by
  unfold alUpdateLoc
  rw [List.map_map]
  apply List.map_congr_left
  intro p _
  by_cases h : p.1 = k <;> simp [Function.comp, h]

/-- The inner visual-elements fold: keys unchanged, key_locations stays
duplicate-free and only grows. -/
lemma ves_fold_inv (char : Str) :
    ∀ (ves : List Str) (cs : List (Str × CharState)) (kl : List Str),
    kl.Nodup →
    (ves.foldl
      (fun acc el =>
        if location_words.any (fun w => containsSub w (pyLower el)) then
          (alUpdateLoc acc.1 char el,
           if el ∈ acc.2 then acc.2 else acc.2 ++ [el])
        else acc)
      (cs, kl)).1.map Prod.fst = cs.map Prod.fst ∧
    (ves.foldl
      (fun acc el =>
        if location_words.any (fun w => containsSub w (pyLower el)) then
          (alUpdateLoc acc.1 char el,
           if el ∈ acc.2 then acc.2 else acc.2 ++ [el])
        else acc)
      (cs, kl)).2.Nodup := by
  intro ves
  induction ves with
  | nil => intro cs kl h; exact ⟨rfl, h⟩
  | cons el t ih =>
    intro cs kl h
    simp only [List.foldl_cons]
    by_cases hc : location_words.any (fun w => containsSub w (pyLower el)) = true
    · rw [if_pos hc]
      by_cases hel : el ∈ kl
      · rw [if_pos hel]
        obtain ⟨h1, h2⟩ := ih (alUpdateLoc cs char el) kl h
        exact ⟨by rw [h1, alUpdateLoc_keys], h2⟩
      · rw [if_neg hel]
        obtain ⟨h1, h2⟩ := ih (alUpdateLoc cs char el) (kl ++ [el])
          (nodup_append_one h hel)
        exact ⟨by rw [h1, alUpdateLoc_keys], h2⟩
    · rw [if_neg (by simpa using hc)]
      exact ih cs kl h

/-- charLocFold: the key list gains at most the processed character, and the
key list and key_locations stay duplicate-free. -/
lemma charLocFold_inv (pn : Nat) (ves : List Str) (char : Str)
    (st : List (Str × CharState) × List Str)
    (hk : (st.1.map Prod.fst).Nodup) (hl : st.2.Nodup) :
    ((charLocFold pn ves char st).1.map Prod.fst =
      st.1.map Prod.fst ++ (if alContains st.1 char then [] else [char])) ∧
    ((charLocFold pn ves char st).1.map Prod.fst).Nodup ∧
    (charLocFold pn ves char st).2.Nodup := by
  unfold charLocFold
  by_cases hc : alContains st.1 char = true
  · simp only [hc, if_true]
    obtain ⟨h1, h2⟩ := ves_fold_inv char ves st.1 st.2 hl
    exact ⟨by rw [h1]; simp, by rw [h1]; exact hk, h2⟩
  · simp only [hc, Bool.false_eq_true, if_false]
    obtain ⟨h1, h2⟩ := ves_fold_inv char ves
      (st.1 ++ [(char, initCharState pn)]) st.2 hl
    have hkeys : (st.1 ++ [(char, initCharState pn)]).map Prod.fst =
        st.1.map Prod.fst ++ [char] := by simp
    have hnotin : char ∉ st.1.map Prod.fst := by
      intro hmem
      apply absurd hc
      simp only [not_not, alContains, List.any_eq_true, decide_eq_true_eq]
      obtain ⟨p, hp, hp2⟩ := List.mem_map.1 hmem
      exact ⟨p, hp, hp2⟩
    refine ⟨by rw [h1, hkeys], ?_, h2⟩
    rw [h1, hkeys]
    exact nodup_append_one hk hnotin

/-- The character/locations component of an update preserves key and
location duplicate-freedom. -/
lemma update_chars_nodup (c : StoryContext) (pd : PageData) (txt : Str)
    (th : List Str) (hk : (c.character_states.map Prod.fst).Nodup)
    (hl : c.key_locations.Nodup) :
    ((update_from_page c pd txt th).character_states.map Prod.fst).Nodup ∧
    (update_from_page c pd txt th).key_locations.Nodup := by
  have main : ∀ (chars : List Str) (st : List (Str × CharState) × List Str),
      (st.1.map Prod.fst).Nodup → st.2.Nodup →
      ((chars.foldl
        (fun st ch => charLocFold pd.page_number pd.visual_elements ch st)
        st).1.map Prod.fst).Nodup ∧
      (chars.foldl
        (fun st ch => charLocFold pd.page_number pd.visual_elements ch st)
        st).2.Nodup := by
    intro chars
    induction chars with
    | nil => intro st h1 h2; exact ⟨h1, h2⟩
    | cons ch t ih =>
      intro st h1 h2
      obtain ⟨_, hk2, hl2⟩ := charLocFold_inv pd.page_number
        pd.visual_elements ch st h1 h2
      exact ih _ hk2 hl2
  exact main pd.characters_present (c.character_states, c.key_locations) hk hl

/-- The summary component always satisfies the last-3 window equation. -/
lemma update_summary (c : StoryContext) (pd : PageData) (txt : Str)
    (th : List Str) :
    (update_from_page c pd txt th).story_summary =
      joinSep (str " -> ")
        (lastN 3 (update_from_page c pd txt th).page_summaries) := rfl

/-- One update appends exactly one page summary. -/
lemma update_page_summaries_len (c : StoryContext) (pd : PageData)
    (txt : Str) (th : List Str) :
    (update_from_page c pd txt th).page_summaries.length =
      c.page_summaries.length + 1 := by
  show (c.page_summaries ++ [_]).length = _
  simp

/-- C5 (amended): for every sequence of update_from_page calls,
themes_developed and key_locations contain no duplicate entries,
character_states holds at most one entry per character name, the prose
summary is always built from only the last 3 page summaries (one summary per
processed page), and — provided the page numbers of the sequence are
pairwise distinct — story_tensions also contains no duplicate entries. -/
theorem storycontext_dedup_amended
    (inputs : List (PageData × Str × List Str))
    (hpn : (inputs.map fun inp => inp.1.page_number).Nodup) :
    (run_updates StoryContext.init inputs).themes_developed.Nodup ∧
    (run_updates StoryContext.init inputs).key_locations.Nodup ∧
    ((run_updates StoryContext.init inputs).character_states.map
      Prod.fst).Nodup ∧
    (run_updates StoryContext.init inputs).story_tensions.Nodup ∧
    (run_updates StoryContext.init inputs).story_summary =
      joinSep (str " -> ")
        (lastN 3 (run_updates StoryContext.init inputs).page_summaries) ∧
    (run_updates StoryContext.init inputs).page_summaries.length =
      inputs.length := by
  have main : ∀ (l : List (PageData × Str × List Str)) (c : StoryContext),
      c.themes_developed.Nodup → c.key_locations.Nodup →
      (c.character_states.map Prod.fst).Nodup →
      (c.story_summary = joinSep (str " -> ") (lastN 3 c.page_summaries)) →
      (run_updates c l).themes_developed.Nodup ∧
      (run_updates c l).key_locations.Nodup ∧
      ((run_updates c l).character_states.map Prod.fst).Nodup ∧
      ((run_updates c l).story_summary =
        joinSep (str " -> ") (lastN 3 (run_updates c l).page_summaries)) ∧
      (run_updates c l).page_summaries.length =
        c.page_summaries.length + l.length := by
    intro l
    induction l with
    | nil => intro c h1 h2 h3 h4; exact ⟨h1, h2, h3, h4, by simp [run_updates]⟩
    | cons inp rest ih =>
      intro c h1 h2 h3 h4
      obtain ⟨pd, txt, th⟩ := inp
      obtain ⟨hk, hl⟩ := update_chars_nodup c pd txt th h3 h2
      have hrec := ih (update_from_page c pd txt th)
        (update_themes_nodup c pd txt th h1) hl hk
        (update_summary c pd txt th)
      refine ⟨hrec.1, hrec.2.1, hrec.2.2.1, hrec.2.2.2.1, ?_⟩
      rw [show run_updates c ((pd, txt, th) :: rest) =
        run_updates (update_from_page c pd txt th) rest from rfl,
        hrec.2.2.2.2, update_page_summaries_len]
      simp [Nat.add_comm, Nat.add_assoc, Nat.add_left_comm]
  have hm := main inputs StoryContext.init (by simp [StoryContext.init])
    (by simp [StoryContext.init]) (by simp [StoryContext.init]) rfl
  have htens : (run_updates StoryContext.init inputs).story_tensions.Nodup := by
    rw [run_updates_tensions inputs StoryContext.init
      (by simp [StoryContext.init])]
    simpa [StoryContext.init] using tension_blocks_nodup inputs hpn
  exact ⟨hm.1, hm.2.1, hm.2.2.1, htens, hm.2.2.2.1, by
    have := hm.2.2.2.2
    simpa [StoryContext.init] using this⟩

/-- Closed instantiation of storycontext_dedup_amended on two pages with
distinct page numbers. -/
theorem storycontext_dedup_amended_witness :
    (run_updates StoryContext.init
      [(⟨1, str "story", str "s", [str "Ann"], [str "a park"]⟩,
        str "a problem, happy", [str "kindness"]),
       (⟨2, str "story", str "t", [str "Ann"], []⟩,
        str "problem again", [str "kindness"])]).themes_developed.Nodup ∧
    (run_updates StoryContext.init
      [(⟨1, str "story", str "s", [str "Ann"], [str "a park"]⟩,
        str "a problem, happy", [str "kindness"]),
       (⟨2, str "story", str "t", [str "Ann"], []⟩,
        str "problem again", [str "kindness"])]).key_locations.Nodup ∧
    ((run_updates StoryContext.init
      [(⟨1, str "story", str "s", [str "Ann"], [str "a park"]⟩,
        str "a problem, happy", [str "kindness"]),
       (⟨2, str "story", str "t", [str "Ann"], []⟩,
        str "problem again", [str "kindness"])]).character_states.map
      Prod.fst).Nodup ∧
    (run_updates StoryContext.init
      [(⟨1, str "story", str "s", [str "Ann"], [str "a park"]⟩,
        str "a problem, happy", [str "kindness"]),
       (⟨2, str "story", str "t", [str "Ann"], []⟩,
        str "problem again", [str "kindness"])]).story_tensions.Nodup ∧
    (run_updates StoryContext.init
      [(⟨1, str "story", str "s", [str "Ann"], [str "a park"]⟩,
        str "a problem, happy", [str "kindness"]),
       (⟨2, str "story", str "t", [str "Ann"], []⟩,
        str "problem again", [str "kindness"])]).story_summary =
      joinSep (str " -> ")
        (lastN 3 (run_updates StoryContext.init
          [(⟨1, str "story", str "s", [str "Ann"], [str "a park"]⟩,
            str "a problem, happy", [str "kindness"]),
           (⟨2, str "story", str "t", [str "Ann"], []⟩,
            str "problem again", [str "kindness"])]).page_summaries) ∧
    (run_updates StoryContext.init
      [(⟨1, str "story", str "s", [str "Ann"], [str "a park"]⟩,
        str "a problem, happy", [str "kindness"]),
       (⟨2, str "story", str "t", [str "Ann"], []⟩,
        str "problem again", [str "kindness"])]).page_summaries.length = 2 :=
  storycontext_dedup_amended
    [(⟨1, str "story", str "s", [str "Ann"], [str "a park"]⟩,
      str "a problem, happy", [str "kindness"]),
     (⟨2, str "story", str "t", [str "Ann"], []⟩,
      str "problem again", [str "kindness"])] (by decide)

/-- C5 counterexample: two updates carrying the same page number (page 1)
whose text contains the tension keyword "problem" leave two identical
entries "Page 1: problem" in story_tensions — the dedup guard compares the
bare indicator against the formatted entries and never fires — refuting the
claim that story_tensions contains no duplicate entries for every sequence
of update_from_page calls. -/
theorem storycontext_dedup_cex :
    (run_updates StoryContext.init
      [(⟨1, str "story", str "s", [], []⟩, str "problem", []),
       (⟨1, str "story", str "s", [], []⟩, str "problem", [])]).story_tensions
      = [str "Page 1: problem", str "Page 1: problem"] ∧
    ¬ (run_updates StoryContext.init
      [(⟨1, str "story", str "s", [], []⟩, str "problem", []),
       (⟨1, str "story", str "s", [], []⟩, str "problem", [])]).story_tensions.Nodup := by
  constructor
  · rfl
  · decide

/- ### C8: TextGenerator.generate_all_page_texts sequencing
(src/src/content_generation/text_generator.py lines 215-341) -/

/-- text_generator.py lines 249-258: the previous-context string supplied to
the OpenAI call, built from the story context and the previous page text. -/
def build_previous_context (c : StoryContext) (prev : Str) : Str :=
  if c.story_summary ≠ [] ∨ c.character_states ≠ [] then
    let context_summary := get_context_for_generation c
    if prev ≠ [] then
      str "STORY CONTEXT: " ++ context_summary ++
        str "\n\nPREVIOUS PAGE: " ++ prev
    else context_summary
  else prev

/-- text_generator.py lines 236-283: generate_page_text.  `result` is the
outcome of the external text-generation call (None = it raised).  On success
the story context is deep-copied through to_dict/from_dict and updated with
the newly generated text. -/
def generate_page_text (c : StoryContext) (pd : PageData) (result : Option Str)
    (themes : List Str) : Option (Str × StoryContext) :=
  match result with
  | none => none
  | some txt =>
    some (txt, update_from_page (StoryContext.from_dict
      (StoryContext.to_dict c)) pd txt themes)

/-- The inputs passed for one attempted text-generation call. -/
structure TextCall where
  page : PageData
  ctx_passed : StoryContext
  prev_text_passed : Str
  prev_context_passed : Str
deriving DecidableEq, Repr

/-- text_generator.py lines 303-341: the page loop of
generate_all_page_texts.  Cover pages are skipped; `k` numbers the attempted
calls, whose outcomes are `gen k`; a raising call leaves the story context,
the previous page text and the results dict unchanged. -/
def run_text_pages (gen : Nat → Option Str) (themes : List Str) :
    List PageData → Nat → StoryContext → Str →
    List TextCall × List (Nat × Str) × StoryContext
  | [], _, c, _ => ([], [], c)
  | pd :: rest, k, c, prev =>
    if pd.page_type = str "cover" then
      run_text_pages gen themes rest k c prev
    else
      let call : TextCall := ⟨pd, c, prev, build_previous_context c prev⟩
      match generate_page_text c pd (gen k) themes with
      | some (txt, c2) =>
        let tail := run_text_pages gen themes rest (k + 1) c2 txt
        (call :: tail.1, (pd.page_number, txt) :: tail.2.1, tail.2.2)
      | none =>
        let tail := run_text_pages gen themes rest (k + 1) c prev
        (call :: tail.1, tail.2.1, tail.2.2)

/-- text_generator.py lines 285-341: generate_all_page_texts, starting from
an empty StoryContext and empty previous text. -/
def generate_all_page_texts (gen : Nat → Option Str) (themes : List Str)
    (pages : List PageData) :
    List TextCall × List (Nat × Str) × StoryContext :=
  run_text_pages gen themes pages 0 StoryContext.init []

/-- The non-cover pages, which are the attempted calls in order. -/
def noncover (pages : List PageData) : List PageData :=
  pages.filter fun pd => !(decide (pd.page_type = str "cover"))

/-- Pure recomputation of the pages that complete successfully, with their
generated texts, when attempt numbering starts at `k`. -/
def succ_list (gen : Nat → Option Str) : Nat → List PageData →
    List (PageData × Str)
  | _, [] => []
  | k, pd :: rest =>
    (match gen k with
     | some t => [(pd, t)]
     | none => []) ++ succ_list gen (k + 1) rest

/-- The deep-copy-then-update step applied once per completed page. -/
def page_update (themes : List Str) (c : StoryContext) (pt : PageData × Str) :
    StoryContext :=
  update_from_page (StoryContext.from_dict (StoryContext.to_dict c))
    pt.1 pt.2 themes

/-- Default-carrying last element of the generated texts. -/
def last_text (prev : Str) (l : List (PageData × Str)) : Str :=
  ((l.map Prod.snd).getLast?).getD prev

/-- Shifting the head of last_text. -/
lemma last_text_cons (prev : Str) (x : PageData × Str)
    (l : List (PageData × Str)) :
    last_text prev (x :: l) = last_text x.2 l := by
  unfold last_text
  induction l with
  | nil => rfl
  | cons y t _ =>
    rcases h : (y.2 :: List.map Prod.snd t).getLast? with _ | v
    · rw [List.getLast?_eq_none_iff] at h
      cases h
    · simp [List.getLast?_cons_cons, h]

/-- Loop invariant: every attempted call receives exactly the fold of the
per-completed-page updates over the successful earlier attempts, and the
last successful text as previous text. -/
lemma run_text_pages_spec (gen : Nat → Option Str) (themes : List Str) :
    ∀ (pages : List PageData) (k : Nat) (c : StoryContext) (prev : Str),
    ∀ i call,
      (run_text_pages gen themes pages k c prev).1.get? i = some call →
      call.ctx_passed =
        List.foldl (page_update themes) c
          (succ_list gen k ((noncover pages).take i)) ∧
      call.prev_text_passed =
        last_text prev (succ_list gen k ((noncover pages).take i)) ∧
      call.prev_context_passed =
        build_previous_context call.ctx_passed call.prev_text_passed := by
  intro pages
  induction pages with
  | nil => intro k c prev i call h; simp [run_text_pages] at h
  | cons pd rest ih =>
    intro k c prev i call h
    by_cases hcov : pd.page_type = str "cover"
    · rw [show run_text_pages gen themes (pd :: rest) k c prev =
        run_text_pages gen themes rest k c prev from by
          simp [run_text_pages, hcov]] at h
      have hnc : noncover (pd :: rest) = noncover rest := by
        simp [noncover, List.filter_cons, hcov]
      rw [hnc]
      exact ih k c prev i call h
    · have hnc : noncover (pd :: rest) = pd :: noncover rest := by
        simp [noncover, List.filter_cons, hcov]
      rw [hnc]
      rcases hg : gen k with _ | txt
      · rw [show run_text_pages gen themes (pd :: rest) k c prev =
          (⟨pd, c, prev, build_previous_context c prev⟩ ::
            (run_text_pages gen themes rest (k + 1) c prev).1,
           (run_text_pages gen themes rest (k + 1) c prev).2.1,
           (run_text_pages gen themes rest (k + 1) c prev).2.2) from by
            simp [run_text_pages, hcov, generate_page_text, hg]] at h
        match i with
        | 0 =>
          simp only [List.get?_cons_zero, Option.some.injEq] at h
          rw [← h]
          exact ⟨rfl, rfl, rfl⟩
        | i + 1 =>
          simp only [List.get?_cons_succ] at h
          have := ih (k + 1) c prev i call h
          have hsucc : succ_list gen k ((pd :: noncover rest).take (i + 1)) =
              succ_list gen (k + 1) ((noncover rest).take i) := by
            simp [succ_list, hg]
          rw [hsucc]
          exact this
      · rw [show run_text_pages gen themes (pd :: rest) k c prev =
          (⟨pd, c, prev, build_previous_context c prev⟩ ::
            (run_text_pages gen themes rest (k + 1)
              (page_update themes c (pd, txt)) txt).1,
           (pd.page_number, txt) ::
            (run_text_pages gen themes rest (k + 1)
              (page_update themes c (pd, txt)) txt).2.1,
           (run_text_pages gen themes rest (k + 1)
              (page_update themes c (pd, txt)) txt).2.2) from by
            simp [run_text_pages, hcov, generate_page_text, hg, page_update]] at h
        match i with
        | 0 =>
          simp only [List.get?_cons_zero, Option.some.injEq] at h
          rw [← h]
          exact ⟨rfl, rfl, rfl⟩
        | i + 1 =>
          simp only [List.get?_cons_succ] at h
          have := ih (k + 1) (page_update themes c (pd, txt)) txt i call h
          have hsucc : succ_list gen k ((pd :: noncover rest).take (i + 1)) =
              (pd, txt) :: succ_list gen (k + 1) ((noncover rest).take i) := by
            simp [succ_list, hg]
          rw [hsucc]
          refine ⟨?_, ?_, this.2.2⟩
          · rw [List.foldl_cons]
            exact this.1
          · rw [last_text_cons]
            exact this.2.1

/-- C8: in generate_all_page_texts, the story context supplied to the i-th
attempted (non-cover) generation call is exactly the once-per-completed-page
fold of StoryContext updates over the successful calls before i, the
previous-page text supplied is the text of the last successful call before i
(empty if none), and the context string handed to the backend is built from
exactly these two values — so a call never sees its own page's content or
any later page, and the context is updated only after a call returns. -/
theorem text_generation_no_lookahead (gen : Nat → Option Str)
    (themes : List Str) (pages : List PageData) (i : Nat) (call : TextCall)
    (h : (generate_all_page_texts gen themes pages).1.get? i = some call) :
    call.ctx_passed =
      List.foldl (page_update themes) StoryContext.init
        (succ_list gen 0 ((noncover pages).take i)) ∧
    call.prev_text_passed =
      last_text [] (succ_list gen 0 ((noncover pages).take i)) ∧
    call.prev_context_passed =
      build_previous_context call.ctx_passed call.prev_text_passed :=
  run_text_pages_spec gen themes pages 0 StoryContext.init [] i call h

/-- Concrete backend for the C8 witness: first call succeeds, later calls
raise. -/
def c8_gen : Nat → Option Str := fun k => if k = 0 then some (str "t1") else none

/-- Concrete three-page plan (cover plus two story pages) for the C8
witness. -/
def c8_pages : List PageData :=
  [⟨0, str "cover", str "c", [], []⟩,
   ⟨1, str "story", str "s1", [], []⟩,
   ⟨2, str "story", str "s2", [], []⟩]

/-- The second attempted call of the C8 witness run, as computed by the
loop. -/
def c8_call : TextCall :=
  ⟨⟨2, str "story", str "s2", [], []⟩,
   ⟨str "Page 1: s1", [], [], [], [str "neutral"], [], [],
    [str "Page 1: s1"]⟩,
   str "t1",
   str "STORY CONTEXT: Story so far: Page 1: s1 | Current mood: neutral\n\nPREVIOUS PAGE: t1"⟩

/-- Closed instantiation of text_generation_no_lookahead at the second call
of a concrete run whose first call succeeds and second raises. -/
theorem text_generation_no_lookahead_witness :
    (generate_all_page_texts c8_gen [str "joy"] c8_pages).1.get? 1 =
      some c8_call ∧
    (c8_call.ctx_passed =
      List.foldl (page_update [str "joy"]) StoryContext.init
        (succ_list c8_gen 0 ((noncover c8_pages).take 1)) ∧
    c8_call.prev_text_passed =
      last_text [] (succ_list c8_gen 0 ((noncover c8_pages).take 1)) ∧
    c8_call.prev_context_passed =
      build_previous_context c8_call.ctx_passed c8_call.prev_text_passed) :=
  ⟨by decide, text_generation_no_lookahead c8_gen [str "joy"] c8_pages 1
    c8_call (by decide)⟩

/- ### Marker scanning shared by the story writer and the impaginator:
the regex `\[IMAGE: (.*?)\]` (re.findall / re.search / re.split / re.sub) -/

/-- Lazy capture of `(.*?)\]` after the literal `[IMAGE: `: the description
runs to the first `]`; `.` does not match a newline, so a newline before the
closing bracket means no match at this position. -/
def captureDesc : Str → Option (Str × Str)
  | [] => none
  | c :: rest =>
    if c = ']' then some ([], rest)
    else if c = '\n' then none
    else (captureDesc rest).map fun dr => (c :: dr.1, dr.2)

/-- The literal marker text `[IMAGE: {d}]`. -/
def imageMarker (d : Str) : Str := str "[IMAGE: " ++ d ++ str "]"

/-- One scan of the text for `\[IMAGE: (.*?)\]`, fuel-structured: returns
the parts between matches (re.split) and the captured descriptions
(re.findall), scanning left to right and continuing after each match. -/
def splitMarkersF : Nat → Str → List Str × List Str
  | 0, s => ([s], [])
  | _ + 1, [] => ([[]], [])
  | f + 1, c :: t =>
    if (str "[IMAGE: ").isPrefixOf (c :: t) then
      match captureDesc ((c :: t).drop 8) with
      | some (d, r) =>
        let res := splitMarkersF f r
        ([] :: res.1, d :: res.2)
      | none =>
        let res := splitMarkersF f t
        ((c :: res.1.headD []) :: res.1.tail, res.2)
    else
      let res := splitMarkersF f t
      ((c :: res.1.headD []) :: res.1.tail, res.2)

/-- Scan with always-sufficient fuel. -/
def splitMarkers (s : Str) : List Str × List Str := splitMarkersF s.length s

/-- re.findall of the marker regex: the captured descriptions in scanning
order. -/
def findallIMAGE (s : Str) : List Str := (splitMarkers s).2

/- ### C3: ImpaginatorAgent.create_book_pdf chapter composition
(src/agents/impaginator_agent.py lines 112-175) -/

/-- Python `text.split("\n\n")`. -/
def split2NL : Str → List Str
  | [] => [[]]
  | '\n' :: '\n' :: t => [] :: split2NL t
  | c :: t =>
    match split2NL t with
    | p :: ps => (c :: p) :: ps
    | [] => [[c]]

/-- Dictionary lookup on the placeholder-id → copied-image-path map. -/
def mapLookup (m : List (Str × Str)) (k : Str) : Option Str :=
  match m with
  | [] => none
  | (k1, v) :: rest => if k1 = k then some v else mapLookup rest k

/-- A content block of the HTML book model built by create_book_pdf. -/
inductive ContentBlock where
  | text (content : Str) (decorative_border : Bool)
  | image (path altText caption : Str)
  | textWithImage (textContent path altText position : Str)
deriving DecidableEq, Repr

/-- impaginator_agent.py lines 121-173: processing of one paragraph of a
chapter.  Only the first marker's id is looked up; re.split removes every
marker from the text; an id missing from the map yields a plain text block
with all markers deleted. -/
def processPara (image_map : List (Str × Str)) (chTitle : Str)
    (para_idx : Nat) (para_text : Str) : List ContentBlock :=
  if pyStrip para_text = [] then []
  else
    match (splitMarkers para_text).2.head? with
    | none => [.text (pyStrip para_text) (decide (para_idx % 5 = 0))]
    | some d =>
      let placeholder_id := pyStrip d
      match mapLookup image_map placeholder_id with
      | some path =>
        let parts := (splitMarkers para_text).1
        if 1 < parts.length ∧ pyStrip (parts.headD []) ≠ [] ∧
            pyStrip (parts.getD 1 []) ≠ [] then
          [.textWithImage (pyStrip (joinSep (str " ") parts)) path chTitle
            (if para_idx % 2 = 0 then str "right" else str "left")]
        else
          (parts.filter fun p => pyStrip p ≠ []).map
            (fun p => ContentBlock.text (pyStrip p) (decide (para_idx % 5 = 0)))
          ++ [.image path chTitle chTitle]
      | none =>
        [.text (pyStrip (splitMarkers para_text).1.flatten)
          (decide (para_idx % 5 = 0))]

/-- impaginator_agent.py lines 112-175: the content blocks of one chapter:
paragraphs are enumerated (blank ones skipped but still counted for the
alternation/border indices). -/
def processChapter (image_map : List (Str × Str)) (ch : ChapterContent) :
    List ContentBlock :=
  ((split2NL ch.text_markdown).enum.map
    (fun ip => processPara image_map ch.title ip.1 ip.2)).flatten

/-- Image paths referenced by a block list (image and text_with_image
blocks). -/
def refPaths (blocks : List ContentBlock) : List Str :=
  blocks.filterMap fun b =>
    match b with
    | .image p _ _ => some p
    | .textWithImage _ p _ _ => some p
    | .text _ _ => none

/-- Whether a paragraph will produce an image-referencing block: it is
non-blank, has a marker, and the first marker's stripped id is in the map. -/
def paraHasMappedImage (image_map : List (Str × Str)) (para : Str) : Bool :=
  !(decide (pyStrip para = [])) &&
    (match (splitMarkers para).2.head? with
     | some d => (mapLookup image_map (pyStrip d)).isSome
     | none => false)

/-- Per-paragraph accounting: exactly one image-referencing block, carrying
the mapped path of the first marker's id, when the paragraph qualifies;
no image-referencing block otherwise — in particular a first marker whose id
is missing from the map produces a single plain-text block with all markers
deleted and no stand-in. -/
lemma processPara_refs (m : List (Str × Str)) (title : Str) (idx : Nat)
    (para : Str) :
    (∀ d path, pyStrip para ≠ [] → (splitMarkers para).2.head? = some d →
      mapLookup m (pyStrip d) = some path →
      refPaths (processPara m title idx para) = [path]) ∧
    (∀ d, pyStrip para ≠ [] → (splitMarkers para).2.head? = some d →
      mapLookup m (pyStrip d) = none →
      processPara m title idx para =
        [.text (pyStrip (splitMarkers para).1.flatten)
          (decide (idx % 5 = 0))]) ∧
    (paraHasMappedImage m para = false →
      refPaths (processPara m title idx para) = []) := by
  refine ⟨?_, ?_, ?_⟩
  · intro d path hblank hd hmap
    unfold processPara
    rw [if_neg (by simpa using hblank), hd]
    simp only [hmap]
    by_cases hsplit : 1 < (splitMarkers para).1.length ∧
        pyStrip ((splitMarkers para).1.headD []) ≠ [] ∧
        pyStrip ((splitMarkers para).1.getD 1 []) ≠ []
    · rw [if_pos hsplit]; rfl
    · rw [if_neg hsplit]
      unfold refPaths
      rw [List.filterMap_append, List.filterMap_map]
      simp [Function.comp]
  · intro d hblank hd hmap
    unfold processPara
    rw [if_neg (by simpa using hblank), hd]
    simp only [hmap]
  · intro hq
    unfold paraHasMappedImage at hq
    by_cases hblank : pyStrip para = []
    · unfold processPara
      rw [if_pos hblank]
      rfl
    · rw [Bool.and_eq_false_iff] at hq
      rcases hq with hq | hq
      · simp [hblank] at hq
      · rcases hd : (splitMarkers para).2.head? with _ | d
        · unfold processPara
          rw [if_neg hblank, hd]
          rfl
        · rw [hd] at hq
          simp only at hq
          unfold processPara
          rw [if_neg hblank, hd]
          rcases hnone : mapLookup m (pyStrip d) with _ | v
          · simp only [hnone]
            rfl
          · rw [hnone] at hq
            simp at hq

/-- Count form of the per-paragraph accounting. -/
lemma processPara_count (m : List (Str × Str)) (title : Str) (idx : Nat)
    (para : Str) :
    (refPaths (processPara m title idx para)).length =
      (if paraHasMappedImage m para = true then 1 else 0) := by
  obtain ⟨h1, _, h3⟩ := processPara_refs m title idx para
  by_cases hq : paraHasMappedImage m para = true
  · rw [if_pos hq]
    unfold paraHasMappedImage at hq
    rw [Bool.and_eq_true] at hq
    have hblank : pyStrip para ≠ [] := by
      intro hb
      rw [hb] at hq
      simpa using hq.1
    rcases hd : (splitMarkers para).2.head? with _ | d
    · rw [hd] at hq; simp at hq
    · have hq2 : (mapLookup m (pyStrip d)).isSome = true := by
        have := hq.2
        rw [hd] at this
        simpa using this
      rcases hmap : mapLookup m (pyStrip d) with _ | path
      · rw [hmap] at hq2; simp at hq2
      · rw [h1 d path hblank hd hmap]; rfl
  · rw [if_neg hq]
    rw [h3 (by revert hq; cases paraHasMappedImage m para <;> simp)]
    rfl

/-- C3 (amended): in the chapter composition of create_book_pdf, only the
first marker of each paragraph is considered: the chapter's blocks contain
exactly one image-referencing block per non-blank paragraph whose first
marker's id is in the image map (carrying that id's mapped path), and no
image-referencing block and no textual stand-in for any other paragraph — a
placeholder whose id is missing from the map has its markers deleted from
the text and is silently dropped, and markers after the first in a paragraph
are removed without producing blocks. -/
theorem composition_completeness_amended (m : List (Str × Str))
    (ch : ChapterContent) :
    (refPaths (processChapter m ch)).length =
      ((split2NL ch.text_markdown).filter
        (fun para => paraHasMappedImage m para)).length ∧
    (∀ idx para d path,
      (split2NL ch.text_markdown).get? idx = some para →
      pyStrip para ≠ [] → (splitMarkers para).2.head? = some d →
      mapLookup m (pyStrip d) = some path →
      refPaths (processPara m ch.title idx para) = [path]) ∧
    (∀ idx para d,
      (split2NL ch.text_markdown).get? idx = some para →
      pyStrip para ≠ [] → (splitMarkers para).2.head? = some d →
      mapLookup m (pyStrip d) = none →
      processPara m ch.title idx para =
        [.text (pyStrip (splitMarkers para).1.flatten)
          (decide (idx % 5 = 0))]) := by
  refine ⟨?_, ?_, ?_⟩
  · unfold processChapter
    have main : ∀ (l : List Str) (start : Nat),
        (refPaths (((List.enumFrom start l).map
          (fun ip => processPara m ch.title ip.1 ip.2)).flatten)).length =
        (l.filter (fun para => paraHasMappedImage m para)).length := by
      intro l
      induction l with
      | nil => intro start; rfl
      | cons para rest ih =>
        intro start
        simp only [List.enumFrom, List.map_cons, List.flatten_cons]
        unfold refPaths
        rw [List.filterMap_append, List.length_append]
        have h1 := processPara_count m ch.title start para
        unfold refPaths at h1
        rw [h1, List.filter_cons]
        by_cases hq : paraHasMappedImage m para = true
        · simp only [hq, if_true, List.length_cons]
          have := ih (start + 1)
          unfold refPaths at this
          omega
        · have hqf : paraHasMappedImage m para = false := by
            revert hq; cases paraHasMappedImage m para <;> simp
          simp only [hqf, Bool.false_eq_true, if_false]
          have := ih (start + 1)
          unfold refPaths at this
          omega
    simpa [List.enum] using main (split2NL ch.text_markdown) 0
  · intro idx para d path _ hblank hd hmap
    exact (processPara_refs m ch.title idx para).1 d path hblank hd hmap
  · intro idx para d _ hblank hd hmap
    exact (processPara_refs m ch.title idx para).2.1 d hblank hd hmap

/-- Image map for the C3 witness. -/
def c3_map : List (Str × Str) := [(str "p1", str "images/p1.png")]

/-- Chapter for the C3 witness: one paragraph with one mapped marker. -/
def c3_ch : ChapterContent := ⟨str "T", str "x [IMAGE: p1] y", []⟩

/-- Closed instantiation of composition_completeness_amended on a chapter
with a single mapped placeholder. -/
theorem composition_completeness_amended_witness :
    (refPaths (processChapter c3_map c3_ch)).length =
      ((split2NL c3_ch.text_markdown).filter
        (fun para => paraHasMappedImage c3_map para)).length ∧
    refPaths (processPara c3_map c3_ch.title 0 (str "x [IMAGE: p1] y")) =
      [str "images/p1.png"] :=
  ⟨(composition_completeness_amended c3_map c3_ch).1,
   (composition_completeness_amended c3_map c3_ch).2.1 0
     (str "x [IMAGE: p1] y") (str "p1") (str "images/p1.png")
     (by decide) (by decide) (by decide) (by decide)⟩

/-- C3 counterexample: a chapter whose whole text is the single resolved
marker `[IMAGE: chapter1_image1]` composed against a map that lacks that id
yields exactly one empty text block: no image block, no "[Image
unavailable]" stand-in, no block referencing the placeholder at all — the
placeholder is silently dropped, refuting the claim. -/
theorem composition_completeness_cex :
    processChapter [] ⟨str "T", str "[IMAGE: chapter1_image1]", []⟩ =
      [ContentBlock.text [] true] ∧
    refPaths (processChapter [] ⟨str "T", str "[IMAGE: chapter1_image1]", []⟩)
      = [] := by
  constructor
  · rfl
  · rfl

/- ### C1: StoryWriterAgent.write_story placeholder resolution
(src/agents/story_writer_agent.py lines 113-129) -/

/-- First occurrence split: text = pre ++ pat ++ post with pre shortest. -/
def splitFirst (pat : Str) : Str → Option (Str × Str)
  | [] => none
  | c :: t =>
    if pat.isPrefixOf (c :: t) then some ([], (c :: t).drop pat.length)
    else (splitFirst pat t).map fun pq => (c :: pq.1, pq.2)

/-- Python `s.replace(pat, rep, 1)`. -/
def replaceFirst (s pat rep : Str) : Str :=
  match splitFirst pat s with
  | none => s
  | some pq => pq.1 ++ rep ++ pq.2

/-- story_writer_agent.py line 119: the placeholder id
`f"chapter{i+1}_image{idx+1}"`. -/
def imageTag (chapterNum idx : Nat) : Str :=
  str "chapter" ++ natStr chapterNum ++ str "_image" ++ natStr idx

/-- story_writer_agent.py lines 117-122: the enumerate loop over the found
descriptions, minting ids and rewriting the first occurrence of each
marker. -/
def resolveLoop (chapterNum : Nat) : Nat → List Str → Str →
    List ImagePlaceholder × Str
  | _, [], t => ([], t)
  | idx, d :: ds, t =>
    let placeholder_id := imageTag chapterNum (idx + 1)
    let t2 := replaceFirst t (imageMarker d) (imageMarker placeholder_id)
    let res := resolveLoop chapterNum (idx + 1) ds t2
    (⟨placeholder_id, d⟩ :: res.1, res.2)

/-- story_writer_agent.py lines 113-129: placeholder resolution for one
chapter: find all markers, then mint ids in scanning order with
replace-first-occurrence rewriting. -/
def resolveChapterPlaceholders (chapterNum : Nat) (chapter_text : Str) :
    List ImagePlaceholder × Str :=
  resolveLoop chapterNum 0 (findallIMAGE chapter_text) chapter_text

/-- A chapter text presented as alternating gaps and markers:
`g1 [IMAGE: d1] g2 [IMAGE: d2] … gk [IMAGE: dk] gLast`. -/
def chain (pairs : List (Str × Str)) (gLast : Str) : Str :=
  pairs.foldr (fun gd acc => gd.1 ++ imageMarker gd.2 ++ acc) gLast

/-- A marker description the regex scan can capture whole: no bracket
characters and no newline. -/
def cleanDesc (s : Str) : Prop := '[' ∉ s ∧ ']' ∉ s ∧ '\n' ∉ s

/-- The pair list with its descriptions replaced by the minted ids. -/
def retag (N : Nat) : Nat → List (Str × Str) → List (Str × Str)
  | _, [] => []
  | idx, gd :: rest => (gd.1, imageTag N (idx + 1)) :: retag N (idx + 1) rest

/-- The placeholder records minted for the pair list. -/
def placeholdersFor (N : Nat) : Nat → List (Str × Str) → List ImagePlaceholder
  | _, [] => []
  | idx, gd :: rest =>
    ⟨imageTag N (idx + 1), gd.2⟩ :: placeholdersFor N (idx + 1) rest

/- #### Scanning lemmas -/

/-- Lazy capture of a clean description. -/
lemma captureDesc_clean (d rest : Str) (h1 : ']' ∉ d) (h2 : '\n' ∉ d) :
    captureDesc (d ++ ']' :: rest) = some (d, rest) := by
  induction d with
  | nil => rfl
  | cons c t ih =>
    have hc1 : c ≠ ']' := fun h => h1 (by simp [h])
    have hc2 : c ≠ '\n' := fun h => h2 (by simp [h])
    rw [List.cons_append]
    show captureDesc (c :: (t ++ ']' :: rest)) = _
    unfold captureDesc
    rw [if_neg hc1, if_neg hc2,
      ih (fun h => h1 (by simp [h])) (fun h => h2 (by simp [h]))]
    rfl

/-- captureDesc consumes input strictly. -/
lemma captureDesc_length : ∀ (s d r : Str), captureDesc s = some (d, r) →
    r.length < s.length := by
  intro s
  induction s with
  | nil => intro d r h; simp [captureDesc] at h
  | cons c t ih =>
    intro d r h
    unfold captureDesc at h
    by_cases h1 : c = ']'
    · rw [if_pos h1] at h
      simp only [Option.some.injEq, Prod.mk.injEq] at h
      rw [← h.2]
      simp
    · rw [if_neg h1] at h
      by_cases h2 : c = '\n'
      · rw [if_pos h2] at h; cases h
      · rw [if_neg h2] at h
        rcases hc : captureDesc t with _ | dr
        · rw [hc] at h; cases h
        · rw [hc] at h
          simp only [Option.map_some', Option.some.injEq, Prod.mk.injEq] at h
          have := ih dr.1 dr.2 (by rw [hc])
          rw [← h.2]
          simp only [List.length_cons]
          omega

/-- A marker pattern never starts matching at a non-bracket character. -/
lemma isPrefixOf_bracket_false {s : Str}
    (hs : ∀ c, s.head? = some c → c ≠ '[') :
    (str "[IMAGE: ").isPrefixOf s = false := by
  cases s with
  | nil => rfl
  | cons c t =>
    have : c ≠ '[' := hs c rfl
    show (('[' == c) && _) = false
    simp [this, Ne.symm this]

/-- Prefix test under a shared literal prefix. -/
lemma isPrefixOf_append_same : ∀ (p a b : Str),
    (p ++ a).isPrefixOf (p ++ b) = a.isPrefixOf b := by
  intro p
  induction p with
  | nil => intro a b; rfl
  | cons c t ih =>
    intro a b
    show ((c == c) && _) = _
    simp [ih]

/-- Step of the scanner when a marker matches here. -/
lemma splitMarkersF_step_match (f : Nat) (c : Char) (t d r : Str)
    (hp : (str "[IMAGE: ").isPrefixOf (c :: t) = true)
    (hc : captureDesc ((c :: t).drop 8) = some (d, r)) :
    splitMarkersF (f + 1) (c :: t) =
      ([] :: (splitMarkersF f r).1, d :: (splitMarkersF f r).2) := by
  simp only [splitMarkersF]
  rw [if_pos hp, hc]

/-- Step of the scanner when the marker prefix matches but the capture
fails. -/
lemma splitMarkersF_step_nocap (f : Nat) (c : Char) (t : Str)
    (hp : (str "[IMAGE: ").isPrefixOf (c :: t) = true)
    (hc : captureDesc ((c :: t).drop 8) = none) :
    splitMarkersF (f + 1) (c :: t) =
      ((c :: (splitMarkersF f t).1.headD []) :: (splitMarkersF f t).1.tail,
       (splitMarkersF f t).2) := by
  simp only [splitMarkersF]
  rw [if_pos hp, hc]

/-- Step of the scanner when no marker starts here. -/
lemma splitMarkersF_step_skip (f : Nat) (c : Char) (t : Str)
    (hp : (str "[IMAGE: ").isPrefixOf (c :: t) = false) :
    splitMarkersF (f + 1) (c :: t) =
      ((c :: (splitMarkersF f t).1.headD []) :: (splitMarkersF f t).1.tail,
       (splitMarkersF f t).2) := by
  simp only [splitMarkersF]
  rw [hp]
  simp

/-- The fuel of splitMarkersF is irrelevant once it covers the text. -/
lemma splitMarkersF_irrel : ∀ (f : Nat) (s : Str) (g : Nat),
    s.length ≤ f → s.length ≤ g → splitMarkersF f s = splitMarkersF g s := by
  intro f
  induction f with
  | zero =>
    intro s g hf _
    have hs : s = [] := by
      cases s with
      | nil => rfl
      | cons c t => simp at hf
    rw [hs]
    cases g <;> rfl
  | succ f ih =>
    intro s g hf hg
    cases s with
    | nil => cases g <;> rfl
    | cons c t =>
      match g, hg with
      | g + 1, hg =>
        simp only [List.length_cons] at hf hg
        by_cases hp : (str "[IMAGE: ").isPrefixOf (c :: t) = true
        · rcases hc : captureDesc ((c :: t).drop 8) with _ | ⟨d, r⟩
          · rw [splitMarkersF_step_nocap f c t hp hc,
              splitMarkersF_step_nocap g c t hp hc,
              ih t g (by omega) (by omega)]
          · have hlen := captureDesc_length _ _ _ hc
            have hdrop : ((c :: t).drop 8).length ≤ t.length := by
              simp [List.length_drop]
            rw [splitMarkersF_step_match f c t d r hp hc,
              splitMarkersF_step_match g c t d r hp hc,
              ih r g (by simp at hlen; omega) (by simp at hlen; omega)]
        · have hpf : (str "[IMAGE: ").isPrefixOf (c :: t) = false := by
            revert hp
            cases (str "[IMAGE: ").isPrefixOf (c :: t) <;> simp
          rw [splitMarkersF_step_skip f c t hpf,
            splitMarkersF_step_skip g c t hpf, ih t g (by omega) (by omega)]

/-- The parts component of a scan is never empty. -/
lemma splitMarkersF_parts_ne_nil : ∀ (f : Nat) (s : Str),
    (splitMarkersF f s).1 ≠ [] := by
  intro f
  induction f with
  | zero => intro s; simp [splitMarkersF]
  | succ f _ =>
    intro s
    cases s with
    | nil => simp [splitMarkersF]
    | cons c t =>
      by_cases hp : (str "[IMAGE: ").isPrefixOf (c :: t) = true
      · rcases hc : captureDesc ((c :: t).drop 8) with _ | ⟨d, r⟩
        · rw [splitMarkersF_step_nocap f c t hp hc]
          simp
        · rw [splitMarkersF_step_match f c t d r hp hc]
          simp
      · have hpf : (str "[IMAGE: ").isPrefixOf (c :: t) = false := by
          revert hp
          cases (str "[IMAGE: ").isPrefixOf (c :: t) <;> simp
        rw [splitMarkersF_step_skip f c t hpf]
        simp

/-- The scanner at the wrapper level: skipping a non-bracket character. -/
lemma splitMarkers_cons_skip (c : Char) (t : Str) (hc : c ≠ '[') :
    splitMarkers (c :: t) =
      ((c :: (splitMarkers t).1.headD []) :: (splitMarkers t).1.tail,
       (splitMarkers t).2) := by
  have hpf : (str "[IMAGE: ").isPrefixOf (c :: t) = false :=
    isPrefixOf_bracket_false (fun x hx => by
      simp only [List.head?_cons, Option.some.injEq] at hx
      rw [← hx]; exact hc)
  show splitMarkersF (t.length + 1) (c :: t) = _
  rw [splitMarkersF_step_skip t.length c t hpf]
  rfl

/-- A pattern is a prefix of itself followed by anything. -/
lemma isPrefixOf_self_append (p x : Str) : p.isPrefixOf (p ++ x) = true := by
  have := isPrefixOf_append_same p [] x
  simpa using this

/-- Scanning past a bracket-free region finds nothing there. -/
lemma splitMarkers_skip (a t : Str) (ha : '[' ∉ a) :
    splitMarkers (a ++ t) =
      ((a ++ (splitMarkers t).1.headD []) :: (splitMarkers t).1.tail,
       (splitMarkers t).2) := by
  induction a with
  | nil =>
    rcases hp : (splitMarkers t).1 with _ | ⟨p, ps⟩
    · exact absurd hp (splitMarkersF_parts_ne_nil _ _)
    · rw [List.nil_append]
      simp only [hp, List.headD_cons, List.tail_cons, List.nil_append]
      rw [← hp]
  | cons c a2 ih =>
    have hc : c ≠ '[' := fun h => ha (by simp [h])
    rw [List.cons_append, splitMarkers_cons_skip c (a2 ++ t) hc,
      ih (fun h => ha (by simp [h]))]
    rcases hp : (splitMarkers t).1 with _ | ⟨p, ps⟩
    · exact absurd hp (splitMarkersF_parts_ne_nil _ _)
    · simp

/-- Scanning a marker with a clean description captures it and moves past
it. -/
lemma splitMarkers_marker (d t : Str) (hd : cleanDesc d) :
    splitMarkers (imageMarker d ++ t) =
      ([] :: (splitMarkers t).1, d :: (splitMarkers t).2) := by
  obtain ⟨h1, h2, h3⟩ := hd
  have hrepr : imageMarker d ++ t =
      '[' :: (str "IMAGE: " ++ (d ++ ']' :: t)) := by
    simp [imageMarker, str]
  have hrepr2 : imageMarker d ++ t = str "[IMAGE: " ++ (d ++ ']' :: t) := by
    simp [imageMarker, str]
  have hpre : (str "[IMAGE: ").isPrefixOf
      ('[' :: (str "IMAGE: " ++ (d ++ ']' :: t))) = true := by
    rw [← hrepr, hrepr2]
    exact isPrefixOf_self_append _ _
  have hdrop : (('[' : Char) :: (str "IMAGE: " ++ (d ++ ']' :: t))).drop 8 =
      d ++ ']' :: t := by
    rw [← hrepr, hrepr2, show (8 : Nat) = (str "[IMAGE: ").length from rfl]
    exact List.drop_left _ _
  have hcap : captureDesc
      ((('[' : Char) :: (str "IMAGE: " ++ (d ++ ']' :: t))).drop 8) =
      some (d, t) := by
    rw [hdrop]
    exact captureDesc_clean d t h2 h3
  rw [hrepr]
  show splitMarkersF ((str "IMAGE: " ++ (d ++ ']' :: t)).length + 1)
    ('[' :: (str "IMAGE: " ++ (d ++ ']' :: t))) = _
  rw [splitMarkersF_step_match _ _ _ d t hpre hcap]
  have hfuel : t.length ≤ (str "IMAGE: " ++ (d ++ ']' :: t)).length := by
    simp [str]
    omega
  rw [splitMarkersF_irrel _ t t.length hfuel (by omega)]
  rfl

/-- findallIMAGE on an interleaved chain returns exactly the descriptions,
in order. -/
lemma findall_chain : ∀ (pairs : List (Str × Str)) (gl : Str),
    (∀ p ∈ pairs, '[' ∉ p.1) → '[' ∉ gl →
    (∀ p ∈ pairs, cleanDesc p.2) →
    findallIMAGE (chain pairs gl) = pairs.map Prod.snd := by
  intro pairs
  induction pairs with
  | nil =>
    intro gl _ hgl _
    show (splitMarkers (chain [] gl)).2 = []
    rw [show chain [] gl = gl ++ [] from by simp [chain],
      splitMarkers_skip gl [] hgl]
    rfl
  | cons gd rest ih =>
    intro gl hg hgl hd
    show (splitMarkers (chain (gd :: rest) gl)).2 = _
    rw [show chain (gd :: rest) gl =
      gd.1 ++ (imageMarker gd.2 ++ chain rest gl) from by simp [chain],
      splitMarkers_skip gd.1 _ (hg gd (by simp)),
      splitMarkers_marker gd.2 _ (hd gd (by simp))]
    show gd.2 :: (splitMarkers (chain rest gl)).2 = _
    rw [show (splitMarkers (chain rest gl)).2 =
      findallIMAGE (chain rest gl) from rfl,
      ih gl (fun p hp => hg p (by simp [hp])) hgl
        (fun p hp => hd p (by simp [hp]))]
    rfl

/- #### replace-first-occurrence lemmas -/

/-- A pattern whose head is c0 cannot match at a position whose character is
not c0. -/
lemma isPrefixOf_head_false {p s : Str} {c0 : Char} (hp : p.head? = some c0)
    (hs : ∀ c, s.head? = some c → c ≠ c0) : p.isPrefixOf s = false := by
  cases p with
  | nil => cases hp
  | cons a p2 =>
    cases s with
    | nil => rfl
    | cons b s2 =>
      simp only [List.head?_cons, Option.some.injEq] at hp
      have hb : b ≠ c0 := hs b rfl
      show ((a == b) && _) = false
      have : a ≠ b := by rw [hp]; exact fun h => hb h.symm
      simp [this]

/-- Matching one full marker against another: the contents must agree
(for bracket-free contents). -/
lemma closed_isPrefixOf : ∀ (x y t : Str), ']' ∉ x → ']' ∉ y →
    ((x ++ [']']).isPrefixOf (y ++ ']' :: t) = true ↔ x = y) := by
  intro x
  induction x with
  | nil =>
    intro y t _ hy
    cases y with
    | nil => simp [List.isPrefixOf]
    | cons b y2 =>
      have hb : b ≠ ']' := fun h => hy (by simp [h])
      show ((']' == b) && _) = true ↔ _
      simp [Ne.symm hb]
  | cons a x2 ih =>
    intro y t hx hy
    have ha : a ≠ ']' := fun h => hx (by simp [h])
    cases y with
    | nil =>
      show ((a == ']') && _) = true ↔ _
      simp [ha]
    | cons b y2 =>
      show ((a == b) && (x2 ++ [']']).isPrefixOf (y2 ++ ']' :: t)) = true ↔ _
      rw [Bool.and_eq_true, beq_iff_eq,
        ih y2 t (fun h => hx (by simp [h])) (fun h => hy (by simp [h]))]
      constructor
      · rintro ⟨rfl, rfl⟩; rfl
      · intro h
        injection h with h1 h2
        exact ⟨h1, h2⟩

/-- One marker is a prefix of another marker (plus trailing text) exactly
when the contents agree. -/
lemma marker_isPrefixOf_iff (x y t : Str) (hx : ']' ∉ x) (hy : ']' ∉ y) :
    ((imageMarker x).isPrefixOf (imageMarker y ++ t) = true) ↔ x = y := by
  have h1 : imageMarker x = str "[IMAGE: " ++ (x ++ [']']) := by
    simp [imageMarker, str]
  have h2 : imageMarker y ++ t = str "[IMAGE: " ++ (y ++ ']' :: t) := by
    simp [imageMarker, str]
  rw [h1, h2, isPrefixOf_append_same]
  exact closed_isPrefixOf x y t hx hy

/-- splitFirst distributes over a region with no occurrence. -/
lemma splitFirst_shift (pat : Str) : ∀ (a t : Str),
    (∀ i, i < a.length → pat.isPrefixOf (a.drop i ++ t) = false) →
    splitFirst pat (a ++ t) =
      (splitFirst pat t).map fun pq => (a ++ pq.1, pq.2) := by
  intro a
  induction a with
  | nil =>
    intro t _
    rcases hs : splitFirst pat t with _ | pq <;> simp [hs]
  | cons c a2 ih =>
    intro t h
    rw [List.cons_append]
    have h0 : pat.isPrefixOf (c :: (a2 ++ t)) = false := by
      have := h 0 (by simp)
      simpa using this
    simp only [splitFirst, h0, Bool.false_eq_true, if_false]
    rw [ih t (fun i hi => by
      have := h (i + 1) (by simp; omega)
      simpa using this)]
    rcases hs : splitFirst pat t with _ | pq <;> simp [hs]

/-- splitFirst finds a marker standing at the front. -/
lemma splitFirst_marker_here (x t : Str) :
    splitFirst (imageMarker x) (imageMarker x ++ t) = some ([], t) := by
  have hrepr : imageMarker x ++ t =
      '[' :: (str "IMAGE: " ++ (x ++ str "]") ++ t) := by
    simp [imageMarker, str]
  have hpre : (imageMarker x).isPrefixOf
      ('[' :: (str "IMAGE: " ++ (x ++ str "]") ++ t)) = true := by
    rw [← hrepr]
    exact isPrefixOf_self_append _ _
  have hdrop : (('[' : Char) :: (str "IMAGE: " ++ (x ++ str "]") ++ t)).drop
      (imageMarker x).length = t := by
    rw [← hrepr]
    exact List.drop_left _ _
  rw [hrepr]
  simp only [splitFirst, hpre, if_true]
  rw [hdrop]

/-- splitFirst skips a whole marker whose content differs from the
pattern's. -/
lemma splitFirst_skip_marker (x y t : Str) (hxy : y ≠ x) (hx : ']' ∉ x)
    (hy : ']' ∉ y) (hy2 : '[' ∉ y) :
    splitFirst (imageMarker x) (imageMarker y ++ t) =
      (splitFirst (imageMarker x) t).map
        fun pq => (imageMarker y ++ pq.1, pq.2) := by
  apply splitFirst_shift
  intro i hi
  match i with
  | 0 =>
    rw [List.drop_zero]
    have := marker_isPrefixOf_iff x y t hx hy
    rcases hb : (imageMarker x).isPrefixOf (imageMarker y ++ t) with _ | _
    · rfl
    · exact absurd (this.1 hb) (fun h => hxy h.symm)
  | i + 1 =>
    have hrepr : imageMarker y = '[' :: (str "IMAGE: " ++ (y ++ str "]")) := by
      simp [imageMarker, str]
    have htail : '[' ∉ str "IMAGE: " ++ (y ++ str "]") := by
      intro hmem
      rcases List.mem_append.1 hmem with hmem | hmem
      · revert hmem; decide
      · rcases List.mem_append.1 hmem with hmem | hmem
        · exact hy2 hmem
        · revert hmem; decide
    rw [hrepr, List.drop_succ_cons]
    apply @isPrefixOf_head_false _ _ '['
    · rfl
    · intro c hc heq
      have hlen : i < (str "IMAGE: " ++ (y ++ str "]")).length := by
        rw [hrepr] at hi
        simpa using hi
      have hne : (str "IMAGE: " ++ (y ++ str "]")).drop i ≠ [] := by
        intro hdn
        have := congrArg List.length hdn
        simp only [List.length_drop, List.length_nil] at this
        omega
      rw [List.head?_append_of_ne_nil _ hne] at hc
      have hcmem : c ∈ (str "IMAGE: " ++ (y ++ str "]")).drop i := by
        cases hh : (str "IMAGE: " ++ (y ++ str "]")).drop i with
        | nil => exact absurd hh hne
        | cons a u =>
          rw [hh] at hc
          simp only [List.head?_cons, Option.some.injEq] at hc
          rw [← hc]
          simp
      exact htail (heq ▸ List.mem_of_mem_drop hcmem)

/-- splitFirst skips a bracket-free gap. -/
lemma splitFirst_skip_gap (x g t : Str) (hg : '[' ∉ g) :
    splitFirst (imageMarker x) (g ++ t) =
      (splitFirst (imageMarker x) t).map fun pq => (g ++ pq.1, pq.2) := by
  apply splitFirst_shift
  intro i hi
  apply @isPrefixOf_head_false _ _ '['
  · rfl
  · intro c hc heq
    have hne : g.drop i ≠ [] := by
      intro hdn
      have := congrArg List.length hdn
      simp only [List.length_drop, List.length_nil] at this
      omega
    rw [List.head?_append_of_ne_nil _ hne] at hc
    have hcmem : c ∈ g.drop i := by
      cases hh : g.drop i with
      | nil => exact absurd hh hne
      | cons a u =>
        rw [hh] at hc
        simp only [List.head?_cons, Option.some.injEq] at hc
        rw [← hc]
        simp
    exact hg (heq ▸ List.mem_of_mem_drop hcmem)

/-- chain distributes over list append. -/
lemma chain_append (a b : List (Str × Str)) (s : Str) :
    chain (a ++ b) s = chain a (chain b s) := by
  simp [chain, List.foldr_append]

/-- A trailing string can move in and out of a chain. -/
lemma chain_out : ∀ (done : List (Str × Str)) (s t : Str),
    chain done s ++ t = chain done (s ++ t) := by
  intro done
  induction done with
  | nil => intro s t; rfl
  | cons gd rest ih =>
    intro s t
    show (gd.1 ++ imageMarker gd.2 ++ chain rest s) ++ t = _
    rw [List.append_assoc, List.append_assoc, ih s t]
    simp [chain]

/-- The first occurrence of a marker standing after processed material whose
gaps are bracket-free and whose contents all differ from the pattern content
is the marker itself. -/
lemma splitFirst_chain (x : Str) : ∀ (done : List (Str × Str)) (g tail : Str),
    (∀ p ∈ done, '[' ∉ p.1) →
    (∀ p ∈ done, ']' ∉ p.2 ∧ '[' ∉ p.2 ∧ p.2 ≠ x) →
    ']' ∉ x → '[' ∉ g →
    splitFirst (imageMarker x) (chain done (g ++ imageMarker x ++ tail)) =
      some (chain done g, tail) := by
  intro done
  induction done with
  | nil =>
    intro g tail _ _ hx hg
    show splitFirst (imageMarker x) (g ++ imageMarker x ++ tail) = _
    rw [List.append_assoc, splitFirst_skip_gap x g _ hg,
      splitFirst_marker_here x tail]
    simp [chain]
  | cons gd rest ih =>
    intro g tail hgaps hconts hx hg
    obtain ⟨hc1, hc2, hc3⟩ := hconts gd (by simp)
    have hstep : chain (gd :: rest) (g ++ imageMarker x ++ tail) =
        gd.1 ++ (imageMarker gd.2 ++ chain rest (g ++ imageMarker x ++ tail)) := by
      simp [chain]
    rw [hstep, splitFirst_skip_gap x gd.1 _ (hgaps gd (by simp)),
      splitFirst_skip_marker x gd.2 _ hc3 hx hc1 hc2,
      ih g tail (fun p hp => hgaps p (by simp [hp]))
        (fun p hp => hconts p (by simp [hp])) hx hg]
    show some (gd.1 ++ (imageMarker gd.2 ++ chain rest g), tail) = _
    simp [chain]

/- #### resolveLoop specification -/

/-- A decimal digit is not a bracket, newline or space. -/
lemma digit_not_special {c : Char} (h : c.isDigit = true) :
    c ≠ '[' ∧ c ≠ ']' ∧ c ≠ '\n' ∧ c ≠ ' ' := by
  refine ⟨?_, ?_, ?_, ?_⟩ <;> rintro rfl <;> simp at h

/-- Minted placeholder ids contain no bracket, newline or space. -/
lemma imageTag_chars (N j : Nat) :
    '[' ∉ imageTag N j ∧ ']' ∉ imageTag N j ∧ '\n' ∉ imageTag N j ∧
      ' ' ∉ imageTag N j := by
  have main : ∀ c ∈ imageTag N j, c ≠ '[' ∧ c ≠ ']' ∧ c ≠ '\n' ∧ c ≠ ' ' := by
    intro c hc
    unfold imageTag at hc
    simp only [List.append_assoc, List.mem_append] at hc
    rcases hc with h | h | h | h
    · exact (by decide : ∀ x ∈ str "chapter",
        x ≠ '[' ∧ x ≠ ']' ∧ x ≠ '\n' ∧ x ≠ ' ') c h
    · exact digit_not_special (natStr_isDigit N c h)
    · exact (by decide : ∀ x ∈ str "_image",
        x ≠ '[' ∧ x ≠ ']' ∧ x ≠ '\n' ∧ x ≠ ' ') c h
    · exact digit_not_special (natStr_isDigit j c h)
  exact ⟨fun h => (main _ h).1 rfl, fun h => (main _ h).2.1 rfl,
    fun h => (main _ h).2.2.1 rfl, fun h => (main _ h).2.2.2 rfl⟩

/-- A string containing a space is never a minted placeholder id. -/
lemma ne_imageTag_of_space {s : Str} (hs : ' ' ∈ s) (N j : Nat) :
    s ≠ imageTag N j :=
  fun h => (imageTag_chars N j).2.2.2 (h ▸ hs)

/-- Minted ids are clean descriptions. -/
lemma imageTag_cleanDesc (N j : Nat) : cleanDesc (imageTag N j) :=
  ⟨(imageTag_chars N j).1, (imageTag_chars N j).2.1,
   (imageTag_chars N j).2.2.1⟩

/-- For a fixed chapter, distinct indices mint distinct ids. -/
lemma imageTag_inj_snd {N j1 j2 : Nat} (h : imageTag N j1 = imageTag N j2) :
    j1 = j2 := by
  unfold imageTag at h
  simp only [List.append_assoc] at h
  have h1 := List.append_cancel_left h
  have h2 := List.append_cancel_left h1
  have h3 := List.append_cancel_left h2
  exact natStr_inj h3

/-- The resolution loop on a chain: each description is replaced, first
occurrence first, by its minted id, producing the placeholder records in
scanning order and the retagged text. -/
lemma resolveLoop_spec (N : Nat) (gl : Str) :
    ∀ (todo done : List (Str × Str)) (idx : Nat),
    (∀ p ∈ done, '[' ∉ p.1) →
    (∀ p ∈ done, ']' ∉ p.2 ∧ '[' ∉ p.2) →
    (∀ p ∈ done, ∀ q ∈ todo, p.2 ≠ q.2) →
    (∀ q ∈ todo, '[' ∉ q.1) →
    (∀ q ∈ todo, cleanDesc q.2) →
    (∀ q ∈ todo, ∀ j, q.2 ≠ imageTag N j) →
    resolveLoop N idx (todo.map Prod.snd) (chain (done ++ todo) gl) =
      (placeholdersFor N idx todo, chain (done ++ retag N idx todo) gl) := by
  intro todo
  induction todo with
  | nil =>
    intro done idx _ _ _ _ _ _
    show ([], chain (done ++ []) gl) = _
    rfl
  | cons gd todo2 ih =>
    intro done idx hdg hdc hdf htg htd htt
    obtain ⟨hdesc1, hdesc2, hdesc3⟩ := htd gd (by simp)
    have hrewrite : chain (done ++ gd :: todo2) gl =
        chain done (gd.1 ++ imageMarker gd.2 ++ chain todo2 gl) := by
      rw [show done ++ gd :: todo2 = done ++ [gd] ++ todo2 from by simp,
        chain_append, chain_append]
      simp [chain]
    have hfound := splitFirst_chain gd.2 done gd.1 (chain todo2 gl)
      hdg (fun p hp => ⟨(hdc p hp).1, (hdc p hp).2,
        hdf p hp gd (by simp)⟩) hdesc2 (htg gd (by simp))
    have hreplace : replaceFirst (chain (done ++ gd :: todo2) gl)
        (imageMarker gd.2) (imageMarker (imageTag N (idx + 1))) =
        chain (done ++ (gd.1, imageTag N (idx + 1)) :: todo2) gl := by
      unfold replaceFirst
      rw [hrewrite, hfound]
      show chain done gd.1 ++ imageMarker (imageTag N (idx + 1)) ++
          chain todo2 gl = _
      rw [List.append_assoc, chain_out,
        show done ++ (gd.1, imageTag N (idx + 1)) :: todo2 =
          done ++ [(gd.1, imageTag N (idx + 1))] ++ todo2 from by simp,
        chain_append, chain_append]
      simp [chain]
    show (⟨imageTag N (idx + 1), gd.2⟩ ::
      (resolveLoop N (idx + 1) (todo2.map Prod.snd) _).1,
      (resolveLoop N (idx + 1) (todo2.map Prod.snd) _).2) = _
    rw [hreplace]
    have hih := ih (done ++ [(gd.1, imageTag N (idx + 1))]) (idx + 1)
      (by intro p hp
          rcases List.mem_append.1 hp with hp | hp
          · exact hdg p hp
          · simp only [List.mem_singleton] at hp
            rw [hp]
            exact htg gd (by simp))
      (by intro p hp
          rcases List.mem_append.1 hp with hp | hp
          · exact hdc p hp
          · simp only [List.mem_singleton] at hp
            rw [hp]
            exact ⟨(imageTag_chars N (idx + 1)).2.1,
              (imageTag_chars N (idx + 1)).1⟩)
      (by intro p hp q hq
          rcases List.mem_append.1 hp with hp | hp
          · exact hdf p hp q (by simp [hq])
          · simp only [List.mem_singleton] at hp
            rw [hp]
            exact fun h => htt q (by simp [hq]) (idx + 1) h.symm)
      (fun q hq => htg q (by simp [hq]))
      (fun q hq => htd q (by simp [hq]))
      (fun q hq => htt q (by simp [hq]))
    rw [show (done ++ [(gd.1, imageTag N (idx + 1))]) ++ todo2 =
      done ++ (gd.1, imageTag N (idx + 1)) :: todo2 from by simp] at hih
    rw [hih]
    simp only [List.append_assoc, List.singleton_append]
    rfl

/-- The minted ids, chapter{N}_image{1..k} in scanning order. -/
lemma placeholdersFor_ids (N : Nat) : ∀ (pairs : List (Str × Str)) (idx : Nat),
    (placeholdersFor N idx pairs).map (fun p => p.id) =
      (List.range pairs.length).map (fun i => imageTag N (idx + i + 1)) := by
  intro pairs
  induction pairs with
  | nil => intro idx; rfl
  | cons gd rest ih =>
    intro idx
    show imageTag N (idx + 1) :: (placeholdersFor N (idx + 1) rest).map
      (fun p => p.id) = _
    rw [ih (idx + 1), List.length_cons, List.range_succ_eq_map,
      List.map_cons, List.map_map]
    congr 1
    apply List.map_congr_left
    intro i _
    show imageTag N (idx + 1 + i + 1) = imageTag N (idx + (i + 1) + 1)
    have h : idx + 1 + i + 1 = idx + (i + 1) + 1 := by omega
    rw [h]

/-- The retagged pairs keep their gaps and carry the minted ids. -/
lemma retag_parts (N : Nat) : ∀ (pairs : List (Str × Str)) (idx : Nat),
    (retag N idx pairs).map Prod.fst = pairs.map Prod.fst ∧
    (retag N idx pairs).map Prod.snd =
      (List.range pairs.length).map (fun i => imageTag N (idx + i + 1)) := by
  intro pairs
  induction pairs with
  | nil => intro idx; exact ⟨rfl, rfl⟩
  | cons gd rest ih =>
    intro idx
    constructor
    · show gd.1 :: (retag N (idx + 1) rest).map Prod.fst = _
      rw [(ih (idx + 1)).1]
      rfl
    · show imageTag N (idx + 1) :: (retag N (idx + 1) rest).map Prod.snd = _
      rw [(ih (idx + 1)).2, List.length_cons, List.range_succ_eq_map,
        List.map_cons, List.map_map]
      congr 1
      apply List.map_congr_left
      intro i _
      show imageTag N (idx + 1 + i + 1) = imageTag N (idx + (i + 1) + 1)
      have h : idx + 1 + i + 1 = idx + (i + 1) + 1 := by omega
      rw [h]

/-- C1 (amended): for every chapter text of the form
`g1 [IMAGE: d1] … gk [IMAGE: dk] g(k+1)` whose gaps contain no `[`, whose
descriptions contain no brackets or newline, and whose descriptions do not
collide with any minted id chapter{N}_image{j}, the per-chapter resolution of
write_story produces exactly k ImagePlaceholder records carrying the original
descriptions with distinct ids chapter{N}_image{1..k} assigned in scanning
order, and rewrites the chapter text so that its markers are exactly the k
ids, each exactly once, in the original marker order (identical description
texts still receive distinct ids via replace-first-occurrence semantics). -/
theorem placeholder_resolution_amended (N : Nat) (pairs : List (Str × Str))
    (gl : Str) (hg : ∀ p ∈ pairs, '[' ∉ p.1) (hgl : '[' ∉ gl)
    (hd : ∀ p ∈ pairs, cleanDesc p.2)
    (ht : ∀ p ∈ pairs, ∀ j, p.2 ≠ imageTag N j) :
    resolveChapterPlaceholders N (chain pairs gl) =
      (placeholdersFor N 0 pairs, chain (retag N 0 pairs) gl) ∧
    (placeholdersFor N 0 pairs).map (fun p => p.description) =
      pairs.map Prod.snd ∧
    (placeholdersFor N 0 pairs).map (fun p => p.id) =
      (List.range pairs.length).map (fun i => imageTag N (i + 1)) ∧
    ((placeholdersFor N 0 pairs).map (fun p => p.id)).Nodup ∧
    findallIMAGE (chain (retag N 0 pairs) gl) =
      (List.range pairs.length).map (fun i => imageTag N (i + 1)) := by
  have hids := placeholdersFor_ids N pairs 0
  simp only [Nat.zero_add] at hids
  refine ⟨?_, ?_, hids, ?_, ?_⟩
  · unfold resolveChapterPlaceholders
    rw [findall_chain pairs gl hg hgl hd]
    have := resolveLoop_spec N gl pairs [] 0
      (by intro p hp; simp at hp) (by intro p hp; simp at hp)
      (by intro p hp; simp at hp) hg hd ht
    simpa using this
  · have main : ∀ (ps : List (Str × Str)) (idx : Nat),
        (placeholdersFor N idx ps).map (fun p => p.description) =
          ps.map Prod.snd := by
      intro ps
      induction ps with
      | nil => intro idx; rfl
      | cons gd rest ih =>
        intro idx
        show gd.2 :: (placeholdersFor N (idx + 1) rest).map
          (fun p => p.description) = _
        rw [ih (idx + 1)]
        rfl
    exact main pairs 0
  · rw [hids]
    apply List.Nodup.map
    · intro i j hij
      have := imageTag_inj_snd hij
      omega
    · exact List.nodup_range _
  · rw [findall_chain (retag N 0 pairs) gl
      (by intro p hp
          have h1 := (retag_parts N pairs 0).1
          have : p.1 ∈ (retag N 0 pairs).map Prod.fst :=
            List.mem_map_of_mem Prod.fst hp
          rw [h1] at this
          obtain ⟨q, hq, hq2⟩ := List.mem_map.1 this
          rw [← hq2]
          exact hg q hq)
      hgl
      (by intro p hp
          have h2 := (retag_parts N pairs 0).2
          have : p.2 ∈ (retag N 0 pairs).map Prod.snd :=
            List.mem_map_of_mem Prod.snd hp
          rw [h2] at this
          obtain ⟨i, _, hi⟩ := List.mem_map.1 this
          rw [← hi]
          exact imageTag_cleanDesc N _),
      (retag_parts N pairs 0).2]
    simp

/-- Closed instantiation of placeholder_resolution_amended at a chapter with
two markers carrying literally identical descriptions. -/
theorem placeholder_resolution_amended_witness :
    resolveChapterPlaceholders 1
      (chain [(str "intro ", str "a red door"),
              (str " and ", str "a red door")] (str " end")) =
      (placeholdersFor 1 0 [(str "intro ", str "a red door"),
              (str " and ", str "a red door")],
       chain (retag 1 0 [(str "intro ", str "a red door"),
              (str " and ", str "a red door")]) (str " end")) ∧
    (placeholdersFor 1 0 [(str "intro ", str "a red door"),
        (str " and ", str "a red door")]).map (fun p => p.description) =
      [(str "intro ", str "a red door"),
        (str " and ", str "a red door")].map Prod.snd ∧
    (placeholdersFor 1 0 [(str "intro ", str "a red door"),
        (str " and ", str "a red door")]).map (fun p => p.id) =
      (List.range 2).map (fun i => imageTag 1 (i + 1)) ∧
    ((placeholdersFor 1 0 [(str "intro ", str "a red door"),
        (str " and ", str "a red door")]).map (fun p => p.id)).Nodup ∧
    findallIMAGE (chain (retag 1 0 [(str "intro ", str "a red door"),
        (str " and ", str "a red door")]) (str " end")) =
      (List.range 2).map (fun i => imageTag 1 (i + 1)) :=
  placeholder_resolution_amended 1
    [(str "intro ", str "a red door"), (str " and ", str "a red door")]
    (str " end")
    (by intro p hp; fin_cases hp <;> decide)
    (by decide)
    (by intro p hp; fin_cases hp <;> exact ⟨by decide, by decide, by decide⟩)
    (by intro p hp j
        fin_cases hp <;> exact ne_imageTag_of_space (by decide) 1 j)

/-- C1 counterexample: in the chapter text
`[IMAGE: a] [IMAGE: chapter1_image1]` the second description collides with
the first minted id, so the replace-first-occurrence rewriting hits the
already-rewritten first marker: the rewritten text carries the markers
chapter1_image2 and then chapter1_image1 — the ids appear exactly once each
but NOT in the original marker order (marker 1's id chapter1_image1 ends up
in the second marker position), refuting the claim for arbitrary raw texts. -/
theorem placeholder_resolution_cex :
    resolveChapterPlaceholders 1 (str "[IMAGE: a] [IMAGE: chapter1_image1]") =
      ([⟨str "chapter1_image1", str "a"⟩,
        ⟨str "chapter1_image2", str "chapter1_image1"⟩],
       str "[IMAGE: chapter1_image2] [IMAGE: chapter1_image1]") ∧
    findallIMAGE (str "[IMAGE: chapter1_image2] [IMAGE: chapter1_image1]") =
      [imageTag 1 2, imageTag 1 1] ∧
    [imageTag 1 2, imageTag 1 1] ≠ [imageTag 1 1, imageTag 1 2] := by
  refine ⟨by rfl, by rfl, by decide⟩

/- ### C2: write_story fallback content and chapter splitting
(src/agents/story_writer_agent.py lines 66-158) -/

/-- First candidate that the continuation accepts (regex backtracking
order). -/
def firstSome {α : Type} : List Str → (Str → Option α) → Option α
  | [], _ => none
  | c :: cs, f =>
    match f c with
    | some a => some a
    | none => firstSome cs f

/-- Greedy `\s*`: the suffixes obtained by consuming a whitespace run,
longest consumption first. -/
def wsCandidates : Str → List Str
  | [] => [[]]
  | c :: t => if isPyWS c then wsCandidates t ++ [c :: t] else [c :: t]

/-- Case-insensitive literal (the pattern is given lowercase). -/
def stripCI : Str → Str → Option Str
  | [], s => some s
  | _ :: _, [] => none
  | p :: ps, c :: cs => if c.toLower = p then stripCI ps cs else none

/-- Greedy `\d+`: suffixes after consuming at least one digit, longest
consumption first. -/
def digitCandidates : Str → List Str
  | [] => []
  | c :: t => if c.isDigit then digitCandidates t ++ [t] else []

/-- Greedy `:?`. -/
def colonCandidates : Str → List Str
  | ':' :: t => [t, ':' :: t]
  | s => [s]

/-- Greedy final `([^\n]+)`: the captured group and the rest. -/
def takeLine (s : Str) : Option (Str × Str) :=
  let cap := s.takeWhile fun c => !(decide (c = '\n'))
  if cap = [] then none else some (cap, s.drop cap.length)

/-- The chapter-header regex after its leading `##?`:
`\s*Chapter\s*\d+:?\s*([^\n]+)` with re.IGNORECASE, greedy with
backtracking.  Returns the captured group and the text after the match. -/
def matchAfterHash (u : Str) : Option (Str × Str) :=
  firstSome (wsCandidates u) fun u1 =>
    (stripCI (str "chapter") u1).bind fun u2 =>
      firstSome (wsCandidates u2) fun u3 =>
        firstSome (digitCandidates u3) fun u4 =>
          firstSome (colonCandidates u4) fun u5 =>
            firstSome (wsCandidates u5) fun u6 =>
              takeLine u6

/-- The full header regex `##?\s*Chapter\s*\d+:?\s*([^\n]+)` at one
position: one `#` required, a second consumed greedily when present. -/
def matchHeaderAt : Str → Option (Str × Str)
  | [] => none
  | c :: t =>
    if c = '#' then
      match t with
      | c2 :: t2 =>
        if c2 = '#' then
          match matchAfterHash t2 with
          | some r => some r
          | none => matchAfterHash t
        else matchAfterHash t
      | [] => matchAfterHash []
    else none

/-- re.finditer over the text, fuel-structured: returns the text before the
first match and, per match, the captured title and the text between this
match's end and the next match's start. -/
def scanChaptersF : Nat → Str → Str × List (Str × Str)
  | 0, s => (s, [])
  | _ + 1, [] => ([], [])
  | f + 1, c :: t =>
    match matchHeaderAt (c :: t) with
    | some gr =>
      let res := scanChaptersF f gr.2
      ([], (gr.1, res.1) :: res.2)
    | none =>
      let res := scanChaptersF f t
      (c :: res.1, res.2)

/-- The scan with always-sufficient fuel. -/
def scanChapters (s : Str) : Str × List (Str × Str) :=
  scanChaptersF s.length s

/-- story_writer_agent.py lines 100-129: the per-match loop building
ChapterContent records, numbering chapters by enumeration order. -/
def parseChaptersLoop : Nat → List (Str × Str) → List ChapterContent ×
    List ImagePlaceholder
  | _, [] => ([], [])
  | i, gm :: rest =>
    let chapter_text := pyStrip gm.2
    let res := resolveChapterPlaceholders (i + 1) chapter_text
    let tail := parseChaptersLoop (i + 1) rest
    (⟨pyStrip gm.1, res.2, res.1⟩ :: tail.1, res.1 ++ tail.2)

/-- story_writer_agent.py lines 92-149: split the complete book text into
chapters by the header regex; when no chapter header is found, treat the
entire text as a single chapter titled with the book title and ids
chapter1_image{k}. -/
def parseChapters (book_title : Str) (complete_book_text : Str) :
    List ChapterContent × List ImagePlaceholder :=
  let ms := (scanChapters complete_book_text).2
  match ms with
  | [] =>
    let res := resolveChapterPlaceholders 1 complete_book_text
    ([⟨book_title, res.2, res.1⟩], res.1)
  | _ :: _ => parseChaptersLoop 0 ms

/-- story_writer_agent.py lines 84-88: the description of the idx-th
fallback marker of a chapter. -/
def fallbackDesc (title : Str) (idx : Nat) : Str :=
  if idx = 0 then str "Opening scene for " ++ title
  else title ++ str " - scene " ++ natStr (idx + 1)

/-- story_writer_agent.py lines 83-88: the marker run of one fallback
chapter, `r` markers starting at index `idx`, each followed by a space. -/
def fallbackMarkersFrom (title : Str) : Nat → Nat → Str
  | _, 0 => []
  | idx, r + 1 =>
    imageMarker (fallbackDesc title idx) ++ str " " ++
      fallbackMarkersFrom title (idx + 1) r

/-- story_writer_agent.py lines 79-90: the body of one fallback chapter
(the text between its header line and the next header). -/
def fallbackBody (ch : ChapterOutline) : Str :=
  str "This is the engaging content for chapter '" ++ ch.title ++
    str "'. " ++ str "It tells the story of " ++ ch.summary ++ str ". " ++
    fallbackMarkersFrom ch.title 0 ch.image_placeholders_needed ++
    str "The chapter continues with exciting developments and transitions smoothly to the next part of the story."

/-- story_writer_agent.py lines 78-90: one full fallback chapter section. -/
def fallbackChapterSection (i : Nat) (ch : ChapterOutline) : Str :=
  str "## Chapter " ++ natStr i ++ str ": " ++ ch.title ++ str "\n\n" ++
    fallbackBody ch ++ str "\n\n"

/-- The concatenated chapter sections, numbering from `i + 1`. -/
def sectionsText : Nat → List ChapterOutline → Str
  | _, [] => []
  | i, ch :: rest => fallbackChapterSection (i + 1) ch ++ sectionsText (i + 1) rest

/-- story_writer_agent.py lines 77-90: the complete fallback book text used
when the text-generation call raises. -/
def fallbackBookText (plan : BookPlan) : Str :=
  str "# " ++ plan.title ++ str "\n\n" ++ sectionsText 0 plan.chapters

/-- story_writer_agent.py lines 66-158, the except branch of write_story:
the fallback book text is built and parsed into chapters and
placeholders. -/
def write_story_fallback (plan : BookPlan) :
    List ChapterContent × List ImagePlaceholder :=
  parseChapters plan.title (fallbackBookText plan)

/- #### Regex combinator lemmas -/

/-- firstSome takes the first accepted candidate. -/
lemma firstSome_cons_some {α : Type} (v : Str) (l : List Str)
    (f : Str → Option α) (a : α) (h : f v = some a) :
    firstSome (v :: l) f = some a := by
  unfold firstSome
  rw [h]

/-- firstSome fails when every candidate does. -/
lemma firstSome_none {α : Type} (l : List Str) (f : Str → Option α)
    (h : ∀ v ∈ l, f v = none) : firstSome l f = none := by
  induction l with
  | nil => rfl
  | cons c cs ih =>
    unfold firstSome
    rw [h c (by simp)]
    exact ih fun v hv => h v (by simp [hv])

/-- A successful firstSome comes from some candidate. -/
lemma firstSome_some {α : Type} : ∀ (l : List Str) (f : Str → Option α)
    (a : α), firstSome l f = some a → ∃ v ∈ l, f v = some a := by
  intro l
  induction l with
  | nil => intro f a h; cases h
  | cons c cs ih =>
    intro f a h
    unfold firstSome at h
    rcases hc : f c with _ | b
    · rw [hc] at h
      obtain ⟨v, hv, hfv⟩ := ih f a h
      exact ⟨v, by simp [hv], hfv⟩
    · rw [hc] at h
      exact ⟨c, by simp, by rw [hc, ← h]⟩

/-- Every ws candidate is the input minus an all-whitespace prefix. -/
lemma wsCandidates_mem : ∀ (s : Str), ∀ v ∈ wsCandidates s,
    ∃ w, s = w ++ v ∧ ∀ c ∈ w, isPyWS c = true := by
  intro s
  induction s with
  | nil =>
    intro v hv
    simp only [wsCandidates, List.mem_singleton] at hv
    exact ⟨[], by simp [hv]⟩
  | cons c t ih =>
    intro v hv
    by_cases hc : isPyWS c = true
    · rw [show wsCandidates (c :: t) = wsCandidates t ++ [c :: t] from by
        simp [wsCandidates, hc]] at hv
      rcases List.mem_append.1 hv with hv | hv
      · obtain ⟨w, hw1, hw2⟩ := ih v hv
        exact ⟨c :: w, by simp [hw1], by
          intro x hx
          rcases List.mem_cons.1 hx with rfl | hx
          · exact hc
          · exact hw2 x hx⟩
      · simp only [List.mem_singleton] at hv
        exact ⟨[], by simp [hv]⟩
    · rw [show wsCandidates (c :: t) = [c :: t] from by
        simp [wsCandidates, hc]] at hv
      simp only [List.mem_singleton] at hv
      exact ⟨[], by simp [hv]⟩

/-- The greedy-first candidate list when the head is not whitespace. -/
lemma wsCandidates_nonws (c : Char) (t : Str) (hc : isPyWS c = false) :
    wsCandidates (c :: t) = [c :: t] := by
  simp [wsCandidates, hc]

/-- The candidate list under one consumed whitespace character. -/
lemma wsCandidates_ws (c : Char) (t : Str) (hc : isPyWS c = true) :
    wsCandidates (c :: t) = wsCandidates t ++ [c :: t] := by
  simp [wsCandidates, hc]

/-- Successful case-insensitive stripping decomposes the input. -/
lemma stripCI_some : ∀ (p v u : Str), stripCI p v = some u →
    ∃ w, v = w ++ u ∧ w.map Char.toLower = p := by
  intro p
  induction p with
  | nil =>
    intro v u h
    unfold stripCI at h
    simp only [Option.some.injEq] at h
    exact ⟨[], by simp [h]⟩
  | cons pc ps ih =>
    intro v u h
    cases v with
    | nil => cases h
    | cons c cs =>
      unfold stripCI at h
      by_cases hc : c.toLower = pc
      · rw [if_pos hc] at h
        obtain ⟨w, hw1, hw2⟩ := ih cs u h
        exact ⟨c :: w, by simp [hw1], by simp [hw2, hc]⟩
      · rw [if_neg hc] at h
        cases h

/-- Length bound for stripCI. -/
lemma stripCI_length {p v u : Str} (h : stripCI p v = some u) :
    u.length ≤ v.length := by
  obtain ⟨w, hw, _⟩ := stripCI_some p v u h
  rw [hw]
  simp

/-- Every digit candidate is a suffix-piece of the input. -/
lemma digitCandidates_mem : ∀ (s : Str), ∀ v ∈ digitCandidates s,
    v.length ≤ s.length := by
  intro s
  induction s with
  | nil => intro v hv; simp [digitCandidates] at hv
  | cons c t ih =>
    intro v hv
    unfold digitCandidates at hv
    by_cases hc : c.isDigit = true
    · rw [if_pos hc] at hv
      rcases List.mem_append.1 hv with hv | hv
      · have := ih v hv
        simp only [List.length_cons]
        omega
      · simp only [List.mem_singleton] at hv
        simp [hv]
    · rw [if_neg hc] at hv
      simp at hv

/-- The colon candidates are suffix-pieces. -/
lemma colonCandidates_mem : ∀ (s : Str), ∀ v ∈ colonCandidates s,
    v.length ≤ s.length := by
  intro s
  match s with
  | [] => intro v hv; simp [colonCandidates] at hv; simp [hv]
  | c :: t =>
    intro v hv
    by_cases hc : c = ':'
    · subst hc
      simp only [colonCandidates, List.mem_cons, List.mem_singleton] at hv
      rcases hv with rfl | rfl | h
      · simp
      · simp
      · simp at h
    · rw [show colonCandidates (c :: t) = [c :: t] from by
        unfold colonCandidates
        cases c
        simp_all [colonCandidates]] at hv
      simp only [List.mem_singleton] at hv
      simp [hv]

/-- takeLine returns a suffix of its input. -/
lemma takeLine_length {s g r : Str} (h : takeLine s = some (g, r)) :
    r.length ≤ s.length := by
  unfold takeLine at h
  by_cases hc : s.takeWhile (fun c => !(decide (c = '\n'))) = []
  · rw [if_pos hc] at h; cases h
  · rw [if_neg hc] at h
    simp only [Option.some.injEq, Prod.mk.injEq] at h
    rw [← h.2]
    simp

/-- Length bound for matchAfterHash. -/
lemma matchAfterHash_length {u g r : Str} (h : matchAfterHash u = some (g, r)) :
    r.length ≤ u.length := by
  unfold matchAfterHash at h
  obtain ⟨v1, hv1, h1⟩ := firstSome_some _ _ _ h
  have hl1 : v1.length ≤ u.length := by
    obtain ⟨w, hw, _⟩ := wsCandidates_mem u v1 hv1
    rw [hw]; simp
  rcases hs : stripCI (str "chapter") v1 with _ | u2
  · rw [hs] at h1; cases h1
  · rw [hs] at h1
    simp only [Option.some_bind] at h1
    have hl2 : u2.length ≤ v1.length := stripCI_length hs
    obtain ⟨v3, hv3, h3⟩ := firstSome_some _ _ _ h1
    have hl3 : v3.length ≤ u2.length := by
      obtain ⟨w, hw, _⟩ := wsCandidates_mem u2 v3 hv3
      rw [hw]; simp
    obtain ⟨v4, hv4, h4⟩ := firstSome_some _ _ _ h3
    have hl4 : v4.length ≤ v3.length := digitCandidates_mem v3 v4 hv4
    obtain ⟨v5, hv5, h5⟩ := firstSome_some _ _ _ h4
    have hl5 : v5.length ≤ v4.length := colonCandidates_mem v4 v5 hv5
    obtain ⟨v6, hv6, h6⟩ := firstSome_some _ _ _ h5
    have hl6 : v6.length ≤ v5.length := by
      obtain ⟨w, hw, _⟩ := wsCandidates_mem v5 v6 hv6
      rw [hw]; simp
    have hl7 : r.length ≤ v6.length := takeLine_length h6
    omega

/-- Length bound for matchHeaderAt: a match consumes at least one
character. -/
lemma matchHeaderAt_length : ∀ {s g r : Str},
    matchHeaderAt s = some (g, r) → r.length < s.length := by
  intro s g r h
  cases s with
  | nil => cases h
  | cons c t =>
    by_cases hc : c = '#'
    · cases t with
      | nil =>
        simp only [matchHeaderAt] at h
        rw [if_pos hc] at h
        rcases hm : matchAfterHash [] with _ | gr
        · rw [hm] at h; cases h
        · rw [hm] at h
          have := @matchAfterHash_length [] gr.1 gr.2 (by
            rw [hm])
          simp only [Option.some.injEq] at h
          subst h
          simp only [List.length_nil] at this
          simp only [List.length_cons]
          simp only [Nat.le_zero, List.length_eq_zero] at this
          simp [this]
      | cons c2 t2 =>
        simp only [matchHeaderAt] at h
        rw [if_pos hc] at h
        by_cases hc2 : c2 = '#'
        · rw [if_pos hc2] at h
          rcases hm : matchAfterHash t2 with _ | gr
          · rw [hm] at h
            rcases hm2 : matchAfterHash (c2 :: t2) with _ | gr2
            · rw [hm2] at h; cases h
            · rw [hm2] at h
              have := @matchAfterHash_length (c2 :: t2) gr2.1 gr2.2
                (by rw [hm2])
              simp only [Option.some.injEq] at h
              subst h
              simp only [List.length_cons] at this ⊢
              omega
          · rw [hm] at h
            have := @matchAfterHash_length t2 gr.1 gr.2 (by rw [hm])
            simp only [Option.some.injEq] at h
            subst h
            simp only [List.length_cons]
            simp at this
            omega
        · rw [if_neg hc2] at h
          have := @matchAfterHash_length (c2 :: t2) g r h
          simp only [List.length_cons] at this ⊢
          omega
    · simp only [matchHeaderAt] at h
      rw [if_neg hc] at h
      cases h

/- #### Scanner lemmas -/

/-- Step of the chapter scanner on a match. -/
lemma scanChaptersF_step_match (f : Nat) (c : Char) (t g r : Str)
    (h : matchHeaderAt (c :: t) = some (g, r)) :
    scanChaptersF (f + 1) (c :: t) =
      ([], (g, (scanChaptersF f r).1) :: (scanChaptersF f r).2) := by
  simp only [scanChaptersF]
  rw [h]

/-- Step of the chapter scanner on a non-match. -/
lemma scanChaptersF_step_skip (f : Nat) (c : Char) (t : Str)
    (h : matchHeaderAt (c :: t) = none) :
    scanChaptersF (f + 1) (c :: t) =
      ((c :: (scanChaptersF f t).1), (scanChaptersF f t).2) := by
  simp only [scanChaptersF]
  rw [h]

/-- The fuel of the chapter scanner is irrelevant once it covers the
text. -/
lemma scanChaptersF_irrel : ∀ (f : Nat) (s : Str) (g : Nat),
    s.length ≤ f → s.length ≤ g → scanChaptersF f s = scanChaptersF g s := by
  intro f
  induction f with
  | zero =>
    intro s g hf _
    have hs : s = [] := by
      cases s with
      | nil => rfl
      | cons c t => simp at hf
    rw [hs]
    cases g <;> rfl
  | succ f ih =>
    intro s g hf hg
    cases s with
    | nil => cases g <;> rfl
    | cons c t =>
      match g, hg with
      | g + 1, hg =>
        simp only [List.length_cons] at hf hg
        rcases hm : matchHeaderAt (c :: t) with _ | gr
        · rw [scanChaptersF_step_skip f c t hm,
            scanChaptersF_step_skip g c t hm, ih t g (by omega) (by omega)]
        · have hlen := @matchHeaderAt_length (c :: t) gr.1 gr.2 (by rw [hm])
          simp only [List.length_cons] at hlen
          rw [scanChaptersF_step_match f c t gr.1 gr.2 (by rw [hm]),
            scanChaptersF_step_match g c t gr.1 gr.2 (by rw [hm]),
            ih gr.2 g (by omega) (by omega)]

/-- One skipped character, at the wrapper level. -/
lemma scanChapters_cons_skip (c : Char) (t : Str)
    (h : matchHeaderAt (c :: t) = none) :
    scanChapters (c :: t) =
      ((c :: (scanChapters t).1), (scanChapters t).2) := by
  show scanChaptersF (t.length + 1) (c :: t) = _
  rw [scanChaptersF_step_skip t.length c t h]
  rfl

/-- A position whose head is not `#` never matches. -/
lemma matchHeaderAt_no_hash {s : Str} (h : ∀ c, s.head? = some c → c ≠ '#') :
    matchHeaderAt s = none := by
  cases s with
  | nil => rfl
  | cons c t =>
    simp only [matchHeaderAt]
    rw [if_neg (h c rfl)]

/-- Scanning past a hash-free region collects it into the prefix. -/
lemma scanChapters_skip (a t : Str) (ha : '#' ∉ a) :
    scanChapters (a ++ t) =
      (a ++ (scanChapters t).1, (scanChapters t).2) := by
  induction a with
  | nil => simp
  | cons c a2 ih =>
    have hc : c ≠ '#' := fun h => ha (by simp [h])
    rw [List.cons_append, scanChapters_cons_skip c (a2 ++ t)
      (matchHeaderAt_no_hash (fun x hx => by
        simp only [List.head?_cons, Option.some.injEq] at hx
        rw [← hx]; exact hc)),
      ih (fun h => ha (by simp [h]))]
    simp

/- #### Character-class facts -/

/-- A decimal digit is not Python whitespace. -/
lemma isPyWS_of_digit {c : Char} (h : c.isDigit = true) : isPyWS c = false := by
  by_contra hws
  simp only [Bool.not_eq_false] at hws
  unfold isPyWS at hws
  simp only [Bool.or_eq_true, decide_eq_true_eq] at hws
  rcases hws with ((((rfl | rfl) | rfl) | rfl) | rfl) | rfl <;> simp_all

/-- A decimal digit is not a hash. -/
lemma digit_ne_hash {c : Char} (h : c.isDigit = true) : c ≠ '#' := by
  intro hc
  rw [hc] at h
  simp at h

/-- A character whose lowercase form occurs in "chapter" is a letter:
not whitespace, not a newline, not a hash. -/
lemma chapter_char {c : Char} (h : c.toLower ∈ str "chapter") :
    isPyWS c = false ∧ c ≠ '\n' ∧ c ≠ '#' := by
  refine ⟨?_, ?_, ?_⟩
  · by_contra hws
    simp only [Bool.not_eq_false] at hws
    unfold isPyWS at hws
    simp only [Bool.or_eq_true, decide_eq_true_eq] at hws
    rcases hws with ((((rfl | rfl) | rfl) | rfl) | rfl) | rfl <;> simp_all <;>
      revert h <;> decide
  · intro hc; rw [hc] at h; revert h; decide
  · intro hc; rw [hc] at h; revert h; decide

/-- The digit list of a number is never empty. -/
lemma natDigits_ne_nil (n : Nat) : natDigits n ≠ [] := by
  rw [natDigits_unfold]
  by_cases h10 : n < 10
  · simp [h10]
  · simp [h10]

/-- The printed number is never empty. -/
lemma natStr_ne_nil (n : Nat) : natStr n ≠ [] := by
  unfold natStr
  simp [natDigits_ne_nil n]

/-- The printed number starts with a digit. -/
lemma natStr_headD_digit (n : Nat) : ((natStr n).headD 'a').isDigit = true := by
  rcases hs : natStr n with _ | ⟨c, t⟩
  · exact absurd hs (natStr_ne_nil n)
  · have : c ∈ natStr n := by rw [hs]; simp
    simpa using natStr_isDigit n c this

/- #### Candidate-list helpers -/

/-- A nonempty string with non-whitespace head admits only the trivial
whitespace consumption. -/
lemma wsCandidates_nonws_append (T X : Str) (hT : T ≠ [])
    (hh : isPyWS (T.headD 'a') = false) :
    wsCandidates (T ++ X) = [T ++ X] := by
  cases T with
  | nil => exact absurd rfl hT
  | cons c t =>
    simp only [List.headD_cons] at hh
    rw [List.cons_append]
    exact wsCandidates_nonws c (t ++ X) hh

/-- Greedy digit consumption over a full digit run: the first candidate
consumes all of it. -/
lemma digitCandidates_all : ∀ (a : Str) (r0 : Char) (rt : Str), a ≠ [] →
    (∀ c ∈ a, c.isDigit = true) → r0.isDigit = false →
    ∃ junk, digitCandidates (a ++ r0 :: rt) = (r0 :: rt) :: junk := by
  intro a
  induction a with
  | nil => intro r0 rt h; exact absurd rfl h
  | cons d a2 ih =>
    intro r0 rt _ hd hr0
    rw [List.cons_append]
    rw [show digitCandidates (d :: (a2 ++ r0 :: rt)) =
      digitCandidates (a2 ++ r0 :: rt) ++ [a2 ++ r0 :: rt] from by
        simp [digitCandidates, hd d (by simp)]]
    cases a2 with
    | nil =>
      refine ⟨[], ?_⟩
      rw [show digitCandidates ([] ++ r0 :: rt) = [] from by
        simp [digitCandidates, hr0]]
      simp
    | cons d2 a3 =>
      obtain ⟨junk, hjunk⟩ := ih r0 rt (by simp)
        (fun c hc => hd c (by simp [hc])) hr0
      exact ⟨junk ++ [(d2 :: a3) ++ r0 :: rt], by rw [hjunk]; rfl⟩

/-- takeWhile over a newline-free segment stops exactly at the newline. -/
lemma takeWhile_no_nl : ∀ (T : Str), '\n' ∉ T → ∀ (rest : Str),
    (T ++ '\n' :: rest).takeWhile (fun c => !(decide (c = '\n'))) = T := by
  intro T
  induction T with
  | nil => intro _ rest; simp [List.takeWhile]
  | cons c t ih =>
    intro hTn rest
    have hc : c ≠ '\n' := fun h => hTn (by simp [h])
    rw [List.cons_append]
    rw [show ((c :: (t ++ '\n' :: rest)).takeWhile
        (fun c => !(decide (c = '\n')))) =
      c :: ((t ++ '\n' :: rest).takeWhile (fun c => !(decide (c = '\n'))))
      from by simp [List.takeWhile_cons, hc]]
    rw [ih (fun h => hTn (by simp [h])) rest]

/-- takeLine captures a nonempty newline-free segment up to the
newline. -/
lemma takeLine_clean (T rest : Str) (hT : T ≠ []) (hTn : '\n' ∉ T) :
    takeLine (T ++ '\n' :: rest) = some (T, '\n' :: rest) := by
  have htw := takeWhile_no_nl T hTn rest
  unfold takeLine
  simp only [htw]
  rw [if_neg hT]
  rw [show (T ++ '\n' :: rest).drop T.length = '\n' :: rest from
    List.drop_left T ('\n' :: rest)]

/- #### The header regex at the book-title line: no match -/

/-- The book-title line `# {title}` does not match the chapter-header
regex when the title does not itself begin (case-insensitively) with
"chapter": matchAfterHash fails on the text after the hash. -/
lemma matchAfterHash_title_none (title S : Str) (hT : title ≠ [])
    (hTh : isPyWS (title.headD 'a') = false)
    (hTp : (str "chapter").isPrefixOf (pyLower title) = false) :
    matchAfterHash (' ' :: (title ++ '\n' :: '\n' :: S)) = none := by
  unfold matchAfterHash
  apply firstSome_none
  intro v hv
  rw [wsCandidates_ws ' ' _ (by decide),
    wsCandidates_nonws_append title ('\n' :: '\n' :: S) hT hTh] at hv
  simp only [List.mem_append, List.mem_singleton] at hv
  suffices hstrip : stripCI (str "chapter") v = none by
    rw [hstrip]; rfl
  rcases hv with hv | hv
  · -- v = title ++ '\n' :: '\n' :: S : a successful strip would make
    -- "chapter" a case-insensitive prefix of the title, or cross the
    -- newline.
    subst hv
    by_contra hs
    rcases hstrip : stripCI (str "chapter") (title ++ '\n' :: '\n' :: S)
      with _ | u2
    · exact hs hstrip
    obtain ⟨w, hw, hwl⟩ := stripCI_some _ _ _ hstrip
    have hwlen : w.length = 7 := by
      have := congrArg List.length hwl
      simpa using this
    by_cases hle : w.length ≤ title.length
    · -- w is a prefix of the title: contradiction with hTp.
      have htake : w = title.take w.length := by
        have h1 : (title ++ '\n' :: '\n' :: S).take w.length = w := by
          rw [hw]; simp
        rw [List.take_append_of_le_length hle] at h1
        exact h1.symm
      have hsplit : title = w ++ title.drop w.length := by
        conv_lhs => rw [← List.take_append_drop w.length title]
        rw [← htake]
      have hlow : pyLower title =
          str "chapter" ++ pyLower (title.drop w.length) := by
        have h2 : pyLower (w ++ title.drop w.length) =
            str "chapter" ++ pyLower (title.drop w.length) := by
          unfold pyLower
          rw [List.map_append, hwl]
        rw [← h2]
        exact congrArg pyLower hsplit
      rw [hlow] at hTp
      rw [isPrefixOf_self_append] at hTp
      cases hTp
    · -- w runs past the title into the newline: contradiction.
      have hnl : '\n' ∈ w := by
        have h1 : (w ++ u2).take w.length = w := by simp
        rw [← hw] at h1
        rw [List.take_append_eq_append_take] at h1
        have h2 : 1 ≤ w.length - title.length := by omega
        have : '\n' ∈ ('\n' :: '\n' :: S).take (w.length - title.length) := by
          cases hh : w.length - title.length with
          | zero => omega
          | succ k => simp [List.take_succ_cons]
        rw [← h1]
        simp only [List.mem_append]
        right
        exact this
      have hmem : '\n'.toLower ∈ str "chapter" := by
        rw [← hwl]
        exact List.mem_map_of_mem Char.toLower hnl
      revert hmem
      decide
  · -- v = ' ' :: … : the head is whitespace, not a 'c'.
    subst hv
    rfl

/- #### The header regex at a fallback chapter header: success -/

/-- The chapter-header regex matches ` Chapter {n}: {T}` right after the
hashes, capturing exactly the title `T`. -/
lemma matchAfterHash_header (n : Nat) (T Z : Str) (hT : T ≠ [])
    (hTh : isPyWS (T.headD 'a') = false) (hTn : '\n' ∉ T) :
    matchAfterHash (str " Chapter " ++
        (natStr n ++ (str ": " ++ (T ++ (str "\n\n" ++ Z))))) =
      some (T, str "\n\n" ++ Z) := by
  unfold matchAfterHash
  rw [show wsCandidates (str " Chapter " ++
        (natStr n ++ (str ": " ++ (T ++ (str "\n\n" ++ Z))))) =
      [str "Chapter " ++ (natStr n ++ (str ": " ++ (T ++ (str "\n\n" ++ Z)))),
       str " Chapter " ++
        (natStr n ++ (str ": " ++ (T ++ (str "\n\n" ++ Z))))] from by
    show wsCandidates (' ' :: (str "Chapter " ++
      (natStr n ++ (str ": " ++ (T ++ (str "\n\n" ++ Z)))))) = _
    rw [wsCandidates_ws ' ' _ (by decide)]
    rw [show wsCandidates (str "Chapter " ++
        (natStr n ++ (str ": " ++ (T ++ (str "\n\n" ++ Z))))) =
        [str "Chapter " ++ (natStr n ++ (str ": " ++ (T ++ (str "\n\n" ++ Z))))]
      from wsCandidates_nonws 'C' _ (by decide)]
    rfl]
  apply firstSome_cons_some
  rw [show stripCI (str "chapter") (str "Chapter " ++
      (natStr n ++ (str ": " ++ (T ++ (str "\n\n" ++ Z))))) =
      some (' ' :: (natStr n ++ (str ": " ++ (T ++ (str "\n\n" ++ Z)))))
    from rfl]
  rw [Option.some_bind]
  rw [show wsCandidates (' ' :: (natStr n ++
      (str ": " ++ (T ++ (str "\n\n" ++ Z))))) =
      [natStr n ++ (str ": " ++ (T ++ (str "\n\n" ++ Z))),
       ' ' :: (natStr n ++ (str ": " ++ (T ++ (str "\n\n" ++ Z))))] from by
    rw [wsCandidates_ws ' ' _ (by decide),
      wsCandidates_nonws_append (natStr n) _ (natStr_ne_nil n)
        (isPyWS_of_digit (natStr_headD_digit n))]
    rfl]
  apply firstSome_cons_some
  obtain ⟨junk, hjunk⟩ := digitCandidates_all (natStr n) ':'
    (' ' :: (T ++ (str "\n\n" ++ Z))) (natStr_ne_nil n)
    (natStr_isDigit n) (by decide)
  rw [show digitCandidates (natStr n ++ (str ": " ++ (T ++ (str "\n\n" ++ Z))))
      = (':' :: ' ' :: (T ++ (str "\n\n" ++ Z))) :: junk from hjunk]
  apply firstSome_cons_some
  rw [show colonCandidates (':' :: ' ' :: (T ++ (str "\n\n" ++ Z))) =
      [' ' :: (T ++ (str "\n\n" ++ Z)), ':' :: ' ' :: (T ++ (str "\n\n" ++ Z))]
    from rfl]
  apply firstSome_cons_some
  rw [show wsCandidates (' ' :: (T ++ (str "\n\n" ++ Z))) =
      [T ++ (str "\n\n" ++ Z), ' ' :: (T ++ (str "\n\n" ++ Z))] from by
    rw [wsCandidates_ws ' ' _ (by decide),
      wsCandidates_nonws_append T _ hT hTh]
    rfl]
  apply firstSome_cons_some
  exact takeLine_clean T ('\n' :: Z) hT hTn

/-- The full header regex at the start of a fallback chapter section. -/
lemma matchHeaderAt_section (n : Nat) (ch : ChapterOutline) (Y : Str)
    (hT : ch.title ≠ []) (hTh : isPyWS (ch.title.headD 'a') = false)
    (hTn : '\n' ∉ ch.title) :
    matchHeaderAt (fallbackChapterSection n ch ++ Y) =
      some (ch.title,
        str "\n\n" ++ (fallbackBody ch ++ (str "\n\n" ++ Y))) := by
  unfold fallbackChapterSection
  simp only [List.append_assoc]
  show matchHeaderAt ('#' :: '#' :: (str " Chapter " ++
    (natStr n ++ (str ": " ++ (ch.title ++ (str "\n\n" ++
      (fallbackBody ch ++ (str "\n\n" ++ Y)))))))) = _
  simp only [matchHeaderAt]
  rw [if_pos trivial, if_pos trivial,
    matchAfterHash_header n ch.title
      (fallbackBody ch ++ (str "\n\n" ++ Y)) hT hTh hTn]

/- #### Character content of the fallback bodies -/

/-- A non-digit character never occurs in a printed number. -/
lemma natStr_not_mem {c : Char} (n : Nat) (hc : c.isDigit = false) :
    c ∉ natStr n := by
  intro h
  rw [natStr_isDigit n c h] at hc
  cases hc

/-- Membership in a fallback marker description comes from the title, the
two description literals, or a digit. -/
lemma fallbackDesc_mem {c : Char} {title : Str} {idx : Nat}
    (h : c ∈ fallbackDesc title idx) :
    c ∈ title ∨ c ∈ str "Opening scene for " ∨ c ∈ str " - scene " ∨
      c.isDigit = true := by
  unfold fallbackDesc at h
  by_cases hidx : idx = 0
  · rw [if_pos hidx] at h
    rcases List.mem_append.1 h with h | h
    · exact Or.inr (Or.inl h)
    · exact Or.inl h
  · rw [if_neg hidx] at h
    simp only [List.append_assoc, List.mem_append] at h
    rcases h with h | h | h
    · exact Or.inl h
    · exact Or.inr (Or.inr (Or.inl h))
    · exact Or.inr (Or.inr (Or.inr (natStr_isDigit _ c h)))

/-- Membership in a fallback marker run. -/
lemma fallbackMarkersFrom_mem {c : Char} {title : Str} :
    ∀ {r idx : Nat}, c ∈ fallbackMarkersFrom title idx r →
    c ∈ str "[IMAGE: " ∨ c = ']' ∨ c = ' ' ∨
      ∃ j, c ∈ fallbackDesc title j := by
  intro r
  induction r with
  | zero => intro idx h; cases h
  | succ r ih =>
    intro idx h
    unfold fallbackMarkersFrom at h
    unfold imageMarker at h
    simp only [List.append_assoc, List.mem_append] at h
    rcases h with h | h | h | h | h
    · exact Or.inl h
    · exact Or.inr (Or.inr (Or.inr ⟨idx, h⟩))
    · simp only [List.mem_singleton, str] at h
      revert h
      intro h
      exact Or.inr (Or.inl (by simpa using h))
    · exact Or.inr (Or.inr (Or.inl (by simpa [str] using h)))
    · exact ih h

/-- The fallback body of a chapter contains no hash when the chapter title
and summary contain none. -/
lemma fallbackBody_no_hash (ch : ChapterOutline) (ht : '#' ∉ ch.title)
    (hs : '#' ∉ ch.summary) : '#' ∉ fallbackBody ch := by
  intro h
  unfold fallbackBody at h
  simp only [List.append_assoc, List.mem_append] at h
  rcases h with h | h | h | h | h | h | h | h
  · exact absurd h (by decide)
  · exact ht h
  · exact absurd h (by decide)
  · exact absurd h (by decide)
  · exact hs h
  · exact absurd h (by decide)
  · rcases fallbackMarkersFrom_mem h with h | h | h | ⟨j, h⟩
    · exact absurd h (by decide)
    · cases h
    · cases h
    · rcases fallbackDesc_mem h with h | h | h | h
      · exact ht h
      · exact absurd h (by decide)
      · exact absurd h (by decide)
      · exact absurd h (by decide)
  · exact absurd h (by decide)

/- #### Python strip of the inter-header text -/

/-- dropWhile past an all-whitespace prefix stops at a non-whitespace
head. -/
lemma dropWhile_ws_all : ∀ (w core : Str), (∀ c ∈ w, isPyWS c = true) →
    isPyWS (core.headD 'a') = false →
    (w ++ core).dropWhile isPyWS = core := by
  intro w
  induction w with
  | nil =>
    intro core _ hc
    cases core with
    | nil => rfl
    | cons c t =>
      simp only [List.headD_cons] at hc
      simp [List.dropWhile_cons, hc]
  | cons a w2 ih =>
    intro core hw hc
    rw [List.cons_append]
    rw [show ((a :: (w2 ++ core)).dropWhile isPyWS) =
      ((w2 ++ core).dropWhile isPyWS) from by
        simp [List.dropWhile_cons, hw a (by simp)]]
    exact ih core (fun c hcm => hw c (by simp [hcm])) hc

/-- Python strip of a whitespace-wrapped text whose core has
non-whitespace ends. -/
lemma pyStrip_wrap (w1 w2 core : Str) (hcore : core ≠ [])
    (hw1 : ∀ c ∈ w1, isPyWS c = true) (hw2 : ∀ c ∈ w2, isPyWS c = true)
    (hh : isPyWS (core.headD 'a') = false)
    (hl : isPyWS (core.reverse.headD 'a') = false) :
    pyStrip (w1 ++ (core ++ w2)) = core := by
  unfold pyStrip
  have hhead : isPyWS ((core ++ w2).headD 'a') = false := by
    cases core with
    | nil => exact absurd rfl hcore
    | cons c t => simpa using hh
  rw [dropWhile_ws_all w1 (core ++ w2) hw1 hhead,
    List.reverse_append,
    dropWhile_ws_all w2.reverse core.reverse
      (fun c hcm => hw2 c (List.mem_reverse.1 hcm)) hl,
    List.reverse_reverse]

/-- The fallback body starts with a 'T'. -/
lemma fallbackBody_head (ch : ChapterOutline) :
    isPyWS ((fallbackBody ch).headD 'a') = false := by
  rfl

/-- The fallback body ends with a '.'. -/
lemma fallbackBody_last (ch : ChapterOutline) :
    isPyWS ((fallbackBody ch).reverse.headD 'a') = false := by
  unfold fallbackBody
  rw [List.reverse_append]
  rfl

/-- The fallback body is nonempty. -/
lemma fallbackBody_ne_nil (ch : ChapterOutline) : fallbackBody ch ≠ [] := by
  unfold fallbackBody
  simp only [List.append_assoc]
  intro h
  cases h

/-- One matched header, at the wrapper level. -/
lemma scanChapters_cons_match (c : Char) (t g r : Str)
    (h : matchHeaderAt (c :: t) = some (g, r)) :
    scanChapters (c :: t) =
      ([], (g, (scanChapters r).1) :: (scanChapters r).2) := by
  show scanChaptersF (t.length + 1) (c :: t) = _
  rw [scanChaptersF_step_match t.length c t g r h]
  have hlen := @matchHeaderAt_length (c :: t) g r h
  simp only [List.length_cons] at hlen
  rw [scanChaptersF_irrel t.length r r.length (by omega) (by omega)]
  rfl

/-- One matched header, stated for an arbitrary text position. -/
lemma scanChapters_match (s g r : Str)
    (h : matchHeaderAt s = some (g, r)) :
    scanChapters s = ([], (g, (scanChapters r).1) :: (scanChapters r).2) := by
  cases s with
  | nil => cases h
  | cons c t => exact scanChapters_cons_match c t g r h

/-- A chapter outline whose title and summary survive the fallback
round-trip: nonempty title not beginning with whitespace, and no header
hash, newline or marker brackets in the title (no hash or opening bracket
in the summary). -/
abbrev safeOutline (ch : ChapterOutline) : Prop :=
  ch.title ≠ [] ∧ isPyWS (ch.title.headD 'a') = false ∧
  '#' ∉ ch.title ∧ '\n' ∉ ch.title ∧ '[' ∉ ch.title ∧ ']' ∉ ch.title ∧
  '#' ∉ ch.summary ∧ '[' ∉ ch.summary

/-- A book title whose `# {title}` line is not itself mistaken for a
chapter header: nonempty, not beginning with whitespace, no hash, and not
beginning (case-insensitively) with "chapter". -/
abbrev safeBookTitle (t : Str) : Prop :=
  t ≠ [] ∧ isPyWS (t.headD 'a') = false ∧ '#' ∉ t ∧
  (str "chapter").isPrefixOf (pyLower t) = false

/-- Scanning one fallback chapter section followed by arbitrary text. -/
lemma scan_section (n : Nat) (ch : ChapterOutline) (Y : Str)
    (hT : ch.title ≠ []) (hTh : isPyWS (ch.title.headD 'a') = false)
    (hTn : '\n' ∉ ch.title) (hth : '#' ∉ ch.title) (hsh : '#' ∉ ch.summary) :
    scanChapters (fallbackChapterSection n ch ++ Y) =
      ([], (ch.title, (str "\n\n" ++ (fallbackBody ch ++ str "\n\n")) ++
        (scanChapters Y).1) :: (scanChapters Y).2) := by
  rw [scanChapters_match _ ch.title _ (matchHeaderAt_section n ch Y hT hTh hTn)]
  have hrem : str "\n\n" ++ (fallbackBody ch ++ (str "\n\n" ++ Y)) =
      (str "\n\n" ++ (fallbackBody ch ++ str "\n\n")) ++ Y := by
    simp [List.append_assoc]
  rw [hrem, scanChapters_skip (str "\n\n" ++ (fallbackBody ch ++ str "\n\n")) Y
    (by
      intro hmem
      rcases List.mem_append.1 hmem with h | h
      · exact absurd h (by decide)
      · rcases List.mem_append.1 h with h | h
        · exact fallbackBody_no_hash ch hth hsh h
        · exact absurd h (by decide))]

/-- Scanning the concatenated fallback chapter sections yields one match
per chapter, carrying the wrapped body as its inter-header text. -/
lemma scan_sections : ∀ (chs : List ChapterOutline) (i0 : Nat),
    (∀ ch ∈ chs, safeOutline ch) →
    scanChapters (sectionsText i0 chs) =
      ([], chs.map fun ch =>
        (ch.title, str "\n\n" ++ (fallbackBody ch ++ str "\n\n"))) := by
  intro chs
  induction chs with
  | nil => intro i0 _; rfl
  | cons ch rest ih =>
    intro i0 hsafe
    obtain ⟨h1, h2, h3, h4, _, _, h7, _⟩ := hsafe ch (by simp)
    show scanChapters (fallbackChapterSection (i0 + 1) ch ++
      sectionsText (i0 + 1) rest) = _
    rw [scan_section (i0 + 1) ch _ h1 h2 h4 h3 h7,
      ih (i0 + 1) (fun c hc => hsafe c (by simp [hc]))]
    simp

/-- The matches of the complete fallback book text are exactly the plan's
chapters, in order, each carrying its wrapped fallback body. -/
lemma scan_fallbackBookText (plan : BookPlan) (hbt : safeBookTitle plan.title)
    (hsafe : ∀ ch ∈ plan.chapters, safeOutline ch) :
    (scanChapters (fallbackBookText plan)).2 =
      plan.chapters.map fun ch =>
        (ch.title, str "\n\n" ++ (fallbackBody ch ++ str "\n\n")) := by
  obtain ⟨ht1, ht2, ht3, ht4⟩ := hbt
  unfold fallbackBookText
  simp only [List.append_assoc]
  have hm : matchHeaderAt ('#' :: (' ' :: (plan.title ++
      (str "\n\n" ++ sectionsText 0 plan.chapters)))) = none := by
    simp only [matchHeaderAt]
    rw [if_pos trivial, if_neg (by decide)]
    exact matchAfterHash_title_none plan.title (sectionsText 0 plan.chapters)
      ht1 ht2 ht4
  show (scanChapters ('#' :: (' ' :: (plan.title ++
    (str "\n\n" ++ sectionsText 0 plan.chapters))))).2 = _
  rw [scanChapters_cons_skip _ _ hm]
  show (scanChapters (' ' :: (plan.title ++
    (str "\n\n" ++ sectionsText 0 plan.chapters)))).2 = _
  rw [show ' ' :: (plan.title ++ (str "\n\n" ++ sectionsText 0 plan.chapters)) =
    (' ' :: (plan.title ++ str "\n\n")) ++ sectionsText 0 plan.chapters from by
      simp]
  rw [scanChapters_skip (' ' :: (plan.title ++ str "\n\n"))
    (sectionsText 0 plan.chapters)
    (by
      intro hmem
      rcases List.mem_cons.1 hmem with h | h
      · exact absurd h (by decide)
      · rcases List.mem_append.1 h with h | h
        · exact ht3 h
        · exact absurd h (by decide))]
  rw [scan_sections plan.chapters 0 hsafe]

/- #### The fallback body as a marker chain -/

/-- The gap/description pairs of the fallback marker run after the first
marker: each further marker is preceded by the single-space gap. -/
def spacePairs (title : Str) : Nat → Nat → List (Str × Str)
  | _, 0 => []
  | idx, r + 1 =>
    (str " ", fallbackDesc title idx) :: spacePairs title (idx + 1) r

/-- The prose of a fallback chapter before its first marker. -/
def fallbackIntro (ch : ChapterOutline) : Str :=
  str "This is the engaging content for chapter '" ++ ch.title ++
    str "'. " ++ str "It tells the story of " ++ ch.summary ++ str ". "

/-- The closing sentence of a fallback chapter. -/
def fallbackFinal : Str :=
  str "The chapter continues with exciting developments and transitions smoothly to the next part of the story."

lemma spacePairs_length (title : Str) : ∀ (r idx : Nat),
    (spacePairs title idx r).length = r := by
  intro r
  induction r with
  | zero => intro idx; rfl
  | succ r ih =>
    intro idx
    show (spacePairs title (idx + 1) r).length + 1 = r + 1
    rw [ih (idx + 1)]

lemma spacePairs_mem {title : Str} : ∀ {r idx : Nat} {p : Str × Str},
    p ∈ spacePairs title idx r →
    p.1 = str " " ∧ ∃ j, p.2 = fallbackDesc title j := by
  intro r
  induction r with
  | zero => intro idx p h; cases h
  | succ r ih =>
    intro idx p h
    rcases List.mem_cons.1 h with h | h
    · rw [h]
      exact ⟨rfl, idx, rfl⟩
    · exact ih h

/-- The marker run preceded by a space, written as a chain of
space-gap/description pairs. -/
lemma markers_chain (title : Str) : ∀ (r idx : Nat) (g : Str),
    str " " ++ (fallbackMarkersFrom title idx r ++ g) =
      chain (spacePairs title idx r) (str " " ++ g) := by
  intro r
  induction r with
  | zero => intro idx g; simp [fallbackMarkersFrom, spacePairs, chain]
  | succ r ih =>
    intro idx g
    simp only [fallbackMarkersFrom, spacePairs]
    rw [show chain ((str " ", fallbackDesc title idx) ::
        spacePairs title (idx + 1) r) (str " " ++ g) =
      str " " ++ (imageMarker (fallbackDesc title idx) ++
        chain (spacePairs title (idx + 1) r) (str " " ++ g)) from by
      simp [chain]]
    rw [← ih (idx + 1) g]
    simp [List.append_assoc]

/-- A fallback body with at least one marker, as a chain. -/
lemma fallbackBody_chain (ch : ChapterOutline) (r : Nat)
    (hn : ch.image_placeholders_needed = r + 1) :
    fallbackBody ch =
      chain ((fallbackIntro ch, fallbackDesc ch.title 0) ::
        spacePairs ch.title 1 r) (str " " ++ fallbackFinal) := by
  unfold fallbackBody
  rw [hn]
  rw [show fallbackMarkersFrom ch.title 0 (r + 1) =
    imageMarker (fallbackDesc ch.title 0) ++ str " " ++
      fallbackMarkersFrom ch.title 1 r from by
    simp [fallbackMarkersFrom]]
  rw [show chain ((fallbackIntro ch, fallbackDesc ch.title 0) ::
      spacePairs ch.title 1 r) (str " " ++ fallbackFinal) =
    fallbackIntro ch ++ (imageMarker (fallbackDesc ch.title 0) ++
      chain (spacePairs ch.title 1 r) (str " " ++ fallbackFinal)) from by
    simp [chain]]
  rw [← markers_chain ch.title r 1 fallbackFinal]
  unfold fallbackIntro fallbackFinal
  simp [List.append_assoc]

/- #### Per-chapter resolution of a fallback body -/

/-- A fallback description contains a space. -/
lemma fallbackDesc_space (title : Str) (j : Nat) :
    ' ' ∈ fallbackDesc title j := by
  unfold fallbackDesc
  by_cases hj : j = 0
  · rw [if_pos hj]
    exact List.mem_append.2 (Or.inl (by decide))
  · rw [if_neg hj]
    simp only [List.append_assoc, List.mem_append]
    exact Or.inr (Or.inl (by decide))

/-- A fallback description is a clean marker description when the title
carries no bracket or newline. -/
lemma fallbackDesc_clean (title : Str) (j : Nat) (h4 : '\n' ∉ title)
    (h5 : '[' ∉ title) (h6 : ']' ∉ title) :
    cleanDesc (fallbackDesc title j) := by
  refine ⟨?_, ?_, ?_⟩ <;> intro hmem <;>
    rcases fallbackDesc_mem hmem with h | h | h | h
  · exact h5 h
  · exact absurd h (by decide)
  · exact absurd h (by decide)
  · exact absurd h (by decide)
  · exact h6 h
  · exact absurd h (by decide)
  · exact absurd h (by decide)
  · exact absurd h (by decide)
  · exact h4 h
  · exact absurd h (by decide)
  · exact absurd h (by decide)
  · exact absurd h (by decide)

/-- The intro gap contains no opening bracket when title and summary
contain none. -/
lemma fallbackIntro_no_lb (ch : ChapterOutline) (h5 : '[' ∉ ch.title)
    (h8 : '[' ∉ ch.summary) : '[' ∉ fallbackIntro ch := by
  intro h
  unfold fallbackIntro at h
  simp only [List.append_assoc, List.mem_append] at h
  rcases h with h | h | h | h | h | h
  · exact absurd h (by decide)
  · exact h5 h
  · exact absurd h (by decide)
  · exact absurd h (by decide)
  · exact h8 h
  · exact absurd h (by decide)

/-- The fallback body of a chapter with no planned markers contains no
opening bracket. -/
lemma fallbackBody_no_lb (ch : ChapterOutline)
    (hn : ch.image_placeholders_needed = 0) (h5 : '[' ∉ ch.title)
    (h8 : '[' ∉ ch.summary) : '[' ∉ fallbackBody ch := by
  intro h
  unfold fallbackBody at h
  rw [hn] at h
  simp only [List.append_assoc, List.mem_append] at h
  rcases h with h | h | h | h | h | h | h | h
  · exact absurd h (by decide)
  · exact h5 h
  · exact absurd h (by decide)
  · exact absurd h (by decide)
  · exact h8 h
  · exact absurd h (by decide)
  · cases h
  · exact absurd h (by decide)

/-- Length of a marker. -/
lemma imageMarker_length (d : Str) :
    (imageMarker d).length = d.length + 9 := by
  unfold imageMarker
  rw [List.length_append, List.length_append]
  rw [show (str "[IMAGE: ").length = 8 from rfl,
    show (str "]").length = 1 from rfl]
  omega

/-- A chain over a nonempty trailing gap is nonempty. -/
lemma chain_ne_nil : ∀ (pairs : List (Str × Str)) {gl : Str}, gl ≠ [] →
    chain pairs gl ≠ [] := by
  intro pairs
  induction pairs with
  | nil => intro gl h; exact h
  | cons p ps ih =>
    intro gl h hnil
    have hlen := congrArg List.length hnil
    rw [show chain (p :: ps) gl =
      p.1 ++ imageMarker p.2 ++ chain ps gl from rfl] at hlen
    rw [List.length_append, List.length_append, imageMarker_length] at hlen
    simp at hlen

/-- Resolution of a fallback chapter body: the minted placeholder ids are
chapter{N}_image{1..n} for the planned n, and the rewritten text is
nonempty. -/
lemma resolve_fallback (N : Nat) (ch : ChapterOutline) (hs : safeOutline ch) :
    ((resolveChapterPlaceholders N (fallbackBody ch)).1).map (fun p => p.id) =
      (List.range ch.image_placeholders_needed).map
        (fun i => imageTag N (i + 1)) ∧
    (resolveChapterPlaceholders N (fallbackBody ch)).2 ≠ [] := by
  obtain ⟨h1, h2, h3, h4, h5, h6, h7, h8⟩ := hs
  cases hn : ch.image_placeholders_needed with
  | zero =>
    have hfind : findallIMAGE (fallbackBody ch) = [] := by
      have := findall_chain [] (fallbackBody ch) (by simp)
        (fallbackBody_no_lb ch hn h5 h8) (by simp)
      simpa [chain] using this
    constructor
    · show ((resolveLoop N 0 (findallIMAGE (fallbackBody ch))
        (fallbackBody ch)).1).map _ = _
      rw [hfind]
      rfl
    · show (resolveLoop N 0 (findallIMAGE (fallbackBody ch))
        (fallbackBody ch)).2 ≠ []
      rw [hfind]
      exact fallbackBody_ne_nil ch
  | succ r =>
    have hp : ∀ p ∈ (fallbackIntro ch, fallbackDesc ch.title 0) ::
        spacePairs ch.title 1 r, '[' ∉ p.1 := by
      intro p hp
      rcases List.mem_cons.1 hp with h | h
      · rw [h]
        exact fallbackIntro_no_lb ch h5 h8
      · rw [(spacePairs_mem h).1]
        decide
    have hgl : '[' ∉ str " " ++ fallbackFinal := by
      unfold fallbackFinal
      decide
    have hd : ∀ p ∈ (fallbackIntro ch, fallbackDesc ch.title 0) ::
        spacePairs ch.title 1 r, cleanDesc p.2 := by
      intro p hp
      rcases List.mem_cons.1 hp with h | h
      · rw [h]
        exact fallbackDesc_clean ch.title 0 h4 h5 h6
      · obtain ⟨_, j, hj⟩ := spacePairs_mem h
        rw [hj]
        exact fallbackDesc_clean ch.title j h4 h5 h6
    have hnt : ∀ p ∈ (fallbackIntro ch, fallbackDesc ch.title 0) ::
        spacePairs ch.title 1 r, ∀ j, p.2 ≠ imageTag N j := by
      intro p hp j
      rcases List.mem_cons.1 hp with h | h
      · rw [h]
        exact ne_imageTag_of_space (fallbackDesc_space ch.title 0) N j
      · obtain ⟨_, j2, hj⟩ := spacePairs_mem h
        rw [hj]
        exact ne_imageTag_of_space (fallbackDesc_space ch.title j2) N j
    have hchain := fallbackBody_chain ch r hn
    have hfind : findallIMAGE (fallbackBody ch) =
        ((fallbackIntro ch, fallbackDesc ch.title 0) ::
          spacePairs ch.title 1 r).map Prod.snd := by
      rw [hchain]
      exact findall_chain _ _ hp hgl hd
    have hloop := resolveLoop_spec N (str " " ++ fallbackFinal)
      ((fallbackIntro ch, fallbackDesc ch.title 0) :: spacePairs ch.title 1 r)
      [] 0 (by intro p hp; simp at hp) (by intro p hp; simp at hp)
      (by intro p hp; simp at hp) hp hd hnt
    simp only [List.nil_append] at hloop
    have hres : resolveChapterPlaceholders N (fallbackBody ch) =
        (placeholdersFor N 0 ((fallbackIntro ch, fallbackDesc ch.title 0) ::
          spacePairs ch.title 1 r),
         chain (retag N 0 ((fallbackIntro ch, fallbackDesc ch.title 0) ::
          spacePairs ch.title 1 r)) (str " " ++ fallbackFinal)) := by
      show resolveLoop N 0 (findallIMAGE (fallbackBody ch))
        (fallbackBody ch) = _
      rw [hfind]
      conv_lhs => rw [hchain]
      exact hloop
    rw [hres]
    constructor
    · have hids := placeholdersFor_ids N
        ((fallbackIntro ch, fallbackDesc ch.title 0) :: spacePairs ch.title 1 r) 0
      simp only [Nat.zero_add] at hids
      rw [hids, List.length_cons, spacePairs_length]
    · exact chain_ne_nil _ (by unfold fallbackFinal; decide)

/-- One step of the chapter-building loop. -/
lemma parseChaptersLoop_cons (i : Nat) (gm : Str × Str)
    (rest : List (Str × Str)) :
    parseChaptersLoop i (gm :: rest) =
      ((⟨pyStrip gm.1, (resolveChapterPlaceholders (i + 1) (pyStrip gm.2)).2,
        (resolveChapterPlaceholders (i + 1) (pyStrip gm.2)).1⟩ :
        ChapterContent) :: (parseChaptersLoop (i + 1) rest).1,
       (resolveChapterPlaceholders (i + 1) (pyStrip gm.2)).1 ++
        (parseChaptersLoop (i + 1) rest).2) := rfl

/-- The chapter-building loop over the fallback matches: one
ChapterContent per chapter, each with nonempty text and the planned
placeholder ids. -/
lemma parseLoop_spec : ∀ (chs : List ChapterOutline) (i0 : Nat),
    (∀ ch ∈ chs, safeOutline ch) →
    (parseChaptersLoop i0 (chs.map fun ch =>
        (ch.title, str "\n\n" ++ (fallbackBody ch ++ str "\n\n")))).1.length =
      chs.length ∧
    ∀ (k : Nat) (ch : ChapterOutline), chs[k]? = some ch →
      ∃ cc, (parseChaptersLoop i0 (chs.map fun ch =>
          (ch.title, str "\n\n" ++ (fallbackBody ch ++ str "\n\n")))).1[k]? =
        some cc ∧ cc.text_markdown ≠ [] ∧
        cc.image_placeholders.map (fun p => p.id) =
          (List.range ch.image_placeholders_needed).map
            (fun j => imageTag (i0 + k + 1) (j + 1)) := by
  intro chs
  induction chs with
  | nil =>
    intro i0 _
    exact ⟨rfl, by intro k ch h; simp at h⟩
  | cons c cs ih =>
    intro i0 hsafe
    have hstrip : pyStrip (str "\n\n" ++ (fallbackBody c ++ str "\n\n")) =
        fallbackBody c :=
      pyStrip_wrap (str "\n\n") (str "\n\n") (fallbackBody c)
        (fallbackBody_ne_nil c) (by decide) (by decide)
        (fallbackBody_head c) (fallbackBody_last c)
    obtain ⟨hids, htext⟩ := resolve_fallback (i0 + 1) c (hsafe c (by simp))
    have hih := ih (i0 + 1) (fun x hx => hsafe x (by simp [hx]))
    constructor
    · rw [List.map_cons, parseChaptersLoop_cons]
      show ((⟨_, _, _⟩ : ChapterContent) ::
        (parseChaptersLoop (i0 + 1) _).1).length = _
      rw [List.length_cons, hih.1, List.length_cons]
    · intro k ch hk
      cases k with
      | zero =>
        rw [List.getElem?_cons_zero] at hk
        have hc : c = ch := by
          simpa using hk
        subst hc
        refine ⟨⟨pyStrip c.title,
          (resolveChapterPlaceholders (i0 + 1) (fallbackBody c)).2,
          (resolveChapterPlaceholders (i0 + 1) (fallbackBody c)).1⟩, ?_, ?_, ?_⟩
        · rw [List.map_cons, parseChaptersLoop_cons]
          show (((⟨pyStrip c.title, _, _⟩ : ChapterContent) :: _)[0]?) = _
          rw [List.getElem?_cons_zero]
          simp only [hstrip]
        · exact htext
        · simpa using hids
      | succ k =>
        rw [List.getElem?_cons_succ] at hk
        obtain ⟨cc, h1, h2, h3⟩ := hih.2 k ch hk
        refine ⟨cc, ?_, h2, ?_⟩
        · rw [List.map_cons, parseChaptersLoop_cons]
          show (((⟨pyStrip c.title, _, _⟩ : ChapterContent) ::
            (parseChaptersLoop (i0 + 1) _).1)[k + 1]?) = _
          rw [List.getElem?_cons_succ]
          exact h1
        · rw [h3]
          have harith : i0 + 1 + k + 1 = i0 + (k + 1) + 1 := by omega
          rw [harith]

/-- C2 (amended): when the text-generation call raises, write_story falls
back to a deterministic book text and still returns one ChapterContent per
planned chapter — each with a nonempty text body and exactly the planned
number of image placeholders with ids chapter{i}_image{1..n_i} — provided
the plan is well-formed: its chapter list is nonempty, its book title does
not masquerade as a chapter header (nonempty, not starting with whitespace,
no '#', not beginning case-insensitively with "chapter"), and each chapter
outline has a nonempty title that does not start with whitespace and is
free of '#', newline and brackets, with a summary free of '#' and '['.
For the empty plan the claim fails: the no-header fallback branch still
produces one chapter. -/
theorem liveness_under_failure_amended (plan : BookPlan)
    (hch : plan.chapters ≠ []) (hbt : safeBookTitle plan.title)
    (hsafe : ∀ ch ∈ plan.chapters, safeOutline ch) :
    (write_story_fallback plan).1.length = plan.chapters.length ∧
    ∀ (i : Nat) (ch : ChapterOutline), plan.chapters[i]? = some ch →
      ∃ cc, (write_story_fallback plan).1[i]? = some cc ∧
        cc.text_markdown ≠ [] ∧
        cc.image_placeholders.map (fun p => p.id) =
          (List.range ch.image_placeholders_needed).map
            (fun j => imageTag (i + 1) (j + 1)) := by
  have hms := scan_fallbackBookText plan hbt hsafe
  obtain ⟨c0, cs0, hc0⟩ := List.exists_cons_of_ne_nil hch
  have hms2 : (scanChapters (fallbackBookText plan)).2 =
      (c0.title, str "\n\n" ++ (fallbackBody c0 ++ str "\n\n")) ::
        (cs0.map fun ch =>
          (ch.title, str "\n\n" ++ (fallbackBody ch ++ str "\n\n"))) := by
    rw [hms, hc0]
    rfl
  have hpc : write_story_fallback plan =
      parseChaptersLoop 0 ((scanChapters (fallbackBookText plan)).2) := by
    simp only [write_story_fallback, parseChapters]
    rw [hms2]
  have hspec := parseLoop_spec plan.chapters 0 hsafe
  constructor
  · rw [hpc, hms]
    exact hspec.1
  · intro i ch hi
    obtain ⟨cc, h1, h2, h3⟩ := hspec.2 i ch hi
    refine ⟨cc, ?_, h2, ?_⟩
    · rw [hpc, hms]
      exact h1
    · rw [h3]
      simp only [Nat.zero_add]

/-- A two-chapter plan exercising both a chapter with markers and one
without. -/
def c2plan : BookPlan :=
  ⟨str "My Book", str "cover", str "style",
    [⟨str "The Door", str "a door opens", 2⟩,
     ⟨str "The End", str "all ends", 0⟩]⟩

/-- Closed instantiation of liveness_under_failure_amended at a concrete
two-chapter plan. -/
theorem liveness_under_failure_amended_witness :
    (write_story_fallback c2plan).1.length = 2 ∧
    ∃ cc, (write_story_fallback c2plan).1[0]? = some cc ∧
      cc.text_markdown ≠ [] ∧
      cc.image_placeholders.map (fun p => p.id) =
        [imageTag 1 1, imageTag 1 2] := by
  obtain ⟨h1, h2⟩ := liveness_under_failure_amended c2plan (by decide)
    (by decide) (by decide)
  constructor
  · rw [h1]
    rfl
  · obtain ⟨cc, hc1, hc2, hc3⟩ := h2 0
      ⟨str "The Door", str "a door opens", 2⟩ (by rfl)
    refine ⟨cc, hc1, hc2, ?_⟩
    rw [hc3]
    rfl

/-- C2 (counterexample): on a plan with an empty chapter list, the
fallback text has no chapter headers, so write_story's no-header branch
produces one chapter — the output length is 1, not the plan's chapter
count 0. -/
theorem liveness_under_failure_cex :
    ∃ plan : BookPlan,
      (write_story_fallback plan).1.length ≠ plan.chapters.length ∧
      plan.chapters = [] ∧ (write_story_fallback plan).1.length = 1 :=
  ⟨⟨str "A", str "c", str "s", []⟩, by decide⟩

end BookPub
